import Mathlib

/-!
Verification development for the forthic-go runtime core: a shallow embedding
of the tokenizer, interpreter, module system, memoization words and error
routing, translated from the Go sources, together with theorems about the
embedded definitions.

Modelling conventions:
* Go slices used as stacks keep their top at the end; the embedding uses Lean
  lists with the top at the head.  Comments on each definition record this.
* Go pointers to mutable objects (modules, memo cells) are modelled as indices
  into explicit heaps carried by the interpreter state.
* Go panics are modelled as a distinct outcome constructor, separate from Go
  error returns.
* Recursion that the Go runtime performs with unbounded loops is modelled with
  an explicit fuel parameter; running out of fuel is a fourth outcome that
  corresponds to no Go behaviour (it only cuts off divergence).
-/

set_option linter.unusedVariables false

namespace Forthic

/-- Source location, from CodeLocation in the Go source (fields Source, Line,
Column, StartPos, EndPos; the File field is omitted because the modelled core
never sets it apart from its zero value).  Go int fields are modelled as Int. -/
structure CodeLocation where
  source : String
  line : Int
  column : Int
  startPos : Int
  endPos : Int
deriving Repr, DecidableEq

/-- Token types, from the TokenType constants in the tokenizer source. -/
inductive TokenType where
  | string
  | comment
  | startArray
  | endArray
  | startModule
  | endModule
  | startDef
  | endDef
  | startMemo
  | word
  | dotSymbol
  | eos
deriving Repr, DecidableEq

/-- Token, from the Go Token struct: kind is the Type field, text the String
field, location the Location field. -/
structure Token where
  kind : TokenType
  text : String
  location : CodeLocation
deriving Repr, DecidableEq

/-- Error kinds, one per error constructor in the Go errors file (ForthicError
and its named wrappers).  The message of plain ForthicError values is kept;
the derived wrappers are identified by constructor instead of by message. -/
inductive ErrKind where
  | forthicMsg (message : String)
  | unknownWord (wordName : String)
  | unknownModule (moduleName : String)
  | stackUnderflow
  | wordExecution (wordName : String)
  | missingSemicolon
  | extraSemicolon
  | moduleErrKind (moduleName : String) (message : String)
  | intentionalStop (message : String)
  | invalidVariableName (varName : String)
deriving Repr, DecidableEq

/-- A Forthic error value: the error kind plus the optional CodeLocation that
WithLocation attaches.  The Forthic-snippet and cause-chain fields of the Go
ForthicError are not modelled (nothing in the modelled core reads them). -/
structure FErr where
  kind : ErrKind
  location : Option CodeLocation
deriving Repr, DecidableEq

/-! ## Tokenizer -/

/-- Tokenizer state, from the Go Tokenizer struct.  The input string is kept
as a list of characters (the Go code indexes bytes; all inputs considered here
are ASCII, where the two coincide).  The whitespace and quoteChars fields are
constant in the source and are modelled as fixed predicates; the stringDelta
and tokenEndPos fields are never read by the modelled core and are omitted. -/
structure Tokenizer where
  referenceLocation : CodeLocation
  line : Int
  column : Int
  input : List Char
  inputPos : Nat
  tokenStartPos : Int
  tokenLine : Int
  tokenColumn : Int
  tokenString : String
  streaming : Bool
deriving Repr

/-- Character-level containment (strings.Contains / strings.ContainsRune for
one-character needles).  The core-library String.contains is avoided
throughout because its implementation does not reduce definitionally. -/
def strContains (s : String) (c : Char) : Bool :=
  s.data.contains c

/-- strings.HasSuffix. -/
def strEndsWith (s : String) (sfx : String) : Bool :=
  sfx.data.isSuffixOf s.data

/-- Replacement pass for the lt entity (strings.ReplaceAll scans left to
right over non-overlapping occurrences, which this structural scan mirrors). -/
def unescapeLt : List Char → List Char
  | '&' :: 'l' :: 't' :: ';' :: rest => '<' :: unescapeLt rest
  | c :: rest => c :: unescapeLt rest
  | [] => []

/-- Replacement pass for the gt entity. -/
def unescapeGt : List Char → List Char
  | '&' :: 'g' :: 't' :: ';' :: rest => '>' :: unescapeGt rest
  | c :: rest => c :: unescapeGt rest
  | [] => []

/-- Preprocessing from the Go unescapeString: replace the two HTML entities
(first the lt pass, then the gt pass, as in the source). -/
def unescapeString (s : String) : String :=
  String.mk (unescapeGt (unescapeLt s.data))

/-- Constructor from NewTokenizer: a nil reference location defaults to
line 1 / column 1 / offset 0. -/
def newTokenizer (inputString : String) (refLoc : Option CodeLocation)
    (streaming : Bool) : Tokenizer :=
  let r := refLoc.getD ⟨"", 1, 1, 0, 0⟩
  { referenceLocation := r
    line := r.line
    column := r.column
    input := (unescapeString inputString).data
    inputPos := 0
    tokenStartPos := 0
    tokenLine := 0
    tokenColumn := 0
    tokenString := ""
    streaming := streaming }

def clearTokenString (t : Tokenizer) : Tokenizer :=
  { t with tokenString := "" }

/-- From noteStartToken: record where the token being built starts. -/
def noteStartToken (t : Tokenizer) : Tokenizer :=
  { t with
    tokenStartPos := (t.inputPos : Int) + t.referenceLocation.startPos
    tokenLine := t.line
    tokenColumn := t.column }

/-- Whitespace class of the tokenizer (the whitespace field of the Go struct):
blanks, tabs, newlines, carriage returns, parentheses and commas. -/
def isWhitespace (ch : Char) : Bool :=
  [' ', '\t', '\n', '\r', '(', ')', ','].contains ch

/-- Quote characters (the quoteChars field of the Go struct). -/
def isQuote (ch : Char) : Bool :=
  ['"', '\'', '^'].contains ch

/-- From isTripleQuote: ch is a quote char and the two following input
characters repeat it. -/
def isTripleQuote (t : Tokenizer) (index : Nat) (ch : Char) : Bool :=
  if !isQuote ch then false
  else if t.input.length ≤ index + 2 then false
  else t.input.getD (index + 1) ' ' == ch && t.input.getD (index + 2) ' ' == ch

/-- From isStartMemo: the two characters at index are the at-sign and colon. -/
def isStartMemo (t : Tokenizer) (index : Nat) : Bool :=
  if t.input.length ≤ index + 1 then false
  else t.input.getD index ' ' == '@' && t.input.getD (index + 1) ' ' == ':'

/-- One forward step of advancePosition: bump line/column bookkeeping and the
input position. -/
def advanceOne (t : Tokenizer) : Tokenizer :=
  if t.inputPos < t.input.length ∧ t.input.getD t.inputPos ' ' = '\n' then
    { t with line := t.line + 1, column := 1, inputPos := t.inputPos + 1 }
  else
    { t with column := t.column + 1, inputPos := t.inputPos + 1 }

/-- One backward step of advancePosition.  The Go code panics when the
position would become negative; every retreat in the source follows an
advance, so that branch is unreachable and is not modelled. -/
def retreatOne (t : Tokenizer) : Tokenizer :=
  let pos := t.inputPos - 1
  if t.input.getD pos ' ' = '\n' then
    { t with line := t.line - 1, column := 1, inputPos := pos }
  else
    { t with column := t.column - 1, inputPos := pos }

def iterateN {α : Type} (f : α → α) : Nat → α → α
  | 0, a => a
  | n + 1, a => iterateN f n (f a)

/-- From advancePosition: move numChars forward (or backward when negative),
updating line and column at every consumed character. -/
def advancePosition (t : Tokenizer) (numChars : Int) : Tokenizer :=
  if 0 ≤ numChars then iterateN advanceOne numChars.toNat t
  else iterateN retreatOne (-numChars).toNat t

/-- From getTokenLocation: the location of the token being built. -/
def getTokenLocation (t : Tokenizer) : CodeLocation :=
  { source := t.referenceLocation.source
    line := t.tokenLine
    column := t.tokenColumn
    startPos := t.tokenStartPos
    endPos := t.tokenStartPos + (t.tokenString.length : Int) }

/-- Append one character to the token string being gathered
(tokenString.WriteRune in the source). -/
def writeCh (t : Tokenizer) (ch : Char) : Tokenizer :=
  { t with tokenString := t.tokenString.push ch }

/-- Result of one NextToken call: a token, the streaming nil/nil defer, an
error, or fuel exhaustion (the fourth case corresponds to no Go behaviour). -/
inductive TokRes where
  | tok (token : Token) (t : Tokenizer)
  | deferred (t : Tokenizer)
  | fail (e : FErr) (t : Tokenizer)
  | dry
deriving Repr

/-- Fuel that bounds every tokenizer loop: each iteration consumes at least
one input character, so the input length plus one always suffices. -/
def tokFuel (t : Tokenizer) : Nat :=
  t.input.length + 1

/-- Loop body of transitionFromCOMMENT: gather to the newline; the newline
itself is written to the token string and then backed over. -/
def commentLoop : Nat → Tokenizer → TokRes
  | 0, _ => .dry
  | fuel + 1, t =>
    if t.inputPos < t.input.length then
      let ch := t.input.getD t.inputPos ' '
      let t := writeCh t ch
      let t := advancePosition t 1
      if ch = '\n' then
        let t := advancePosition t (-1)
        .tok ⟨.comment, t.tokenString, getTokenLocation t⟩ t
      else
        commentLoop fuel t
    else
      .tok ⟨.comment, t.tokenString, getTokenLocation t⟩ t

/-- From transitionFromCOMMENT: note the token start, then gather. -/
def transitionFromCOMMENT (t : Tokenizer) : TokRes :=
  let t := noteStartToken t
  commentLoop (tokFuel t) t

/-- From gatherDefinitionName: gather a definition (or memo) name, rejecting
quote characters and brackets/braces. -/
def gatherDefinitionName : Nat → Tokenizer → Option FErr × Tokenizer
  | 0, t => (some ⟨.forthicMsg "out of fuel", none⟩, t)
  | fuel + 1, t =>
    if t.inputPos < t.input.length then
      let ch := t.input.getD t.inputPos ' '
      let t := advancePosition t 1
      if isWhitespace ch then (none, t)
      else if isQuote ch then
        (some ⟨.forthicMsg "Definition names can't have quotes in them",
               some ⟨"", t.tokenLine, t.tokenColumn, 0, 0⟩⟩, t)
      else if ['[', ']', '\x7b', '\x7d'].contains ch then
        (some ⟨.forthicMsg ("Definition names can't have '" ++ String.singleton ch ++ "' in them"),
               some ⟨"", t.tokenLine, t.tokenColumn, 0, 0⟩⟩, t)
      else
        gatherDefinitionName fuel (writeCh t ch)
    else (none, t)

/-- From transitionFromGATHER_DEFINITION_NAME. -/
def transitionFromGATHER_DEFINITION_NAME (t : Tokenizer) : TokRes :=
  let t := noteStartToken t
  match gatherDefinitionName (tokFuel t) t with
  | (some e, t) => .fail e t
  | (none, t) => .tok ⟨.startDef, t.tokenString, getTokenLocation t⟩ t

/-- From transitionFromGATHER_MEMO_NAME. -/
def transitionFromGATHER_MEMO_NAME (t : Tokenizer) : TokRes :=
  let t := noteStartToken t
  match gatherDefinitionName (tokFuel t) t with
  | (some e, t) => .fail e t
  | (none, t) => .tok ⟨.startMemo, t.tokenString, getTokenLocation t⟩ t

/-- From transitionFromSTART_DEFINITION: skip whitespace, then gather the
definition name; end of stream here is an error. -/
def transitionFromSTART_DEFINITION : Nat → Tokenizer → TokRes
  | 0, _ => .dry
  | fuel + 1, t =>
    if t.inputPos < t.input.length then
      let ch := t.input.getD t.inputPos ' '
      let t := advancePosition t 1
      if isWhitespace ch then transitionFromSTART_DEFINITION fuel t
      else if isQuote ch then
        .fail ⟨.forthicMsg "Definition names can't have quotes in them",
               some ⟨"", t.tokenLine, t.tokenColumn, 0, 0⟩⟩ t
      else
        transitionFromGATHER_DEFINITION_NAME (advancePosition t (-1))
    else
      .fail ⟨.forthicMsg "Got EOS in START_DEFINITION",
             some ⟨"", t.tokenLine, t.tokenColumn, 0, 0⟩⟩ t

/-- From transitionFromSTART_MEMO: like START_DEFINITION but produces a
START_MEMO token. -/
def transitionFromSTART_MEMO : Nat → Tokenizer → TokRes
  | 0, _ => .dry
  | fuel + 1, t =>
    if t.inputPos < t.input.length then
      let ch := t.input.getD t.inputPos ' '
      let t := advancePosition t 1
      if isWhitespace ch then transitionFromSTART_MEMO fuel t
      else if isQuote ch then
        .fail ⟨.forthicMsg "Memo names can't have quotes in them",
               some ⟨"", t.tokenLine, t.tokenColumn, 0, 0⟩⟩ t
      else
        transitionFromGATHER_MEMO_NAME (advancePosition t (-1))
    else
      .fail ⟨.forthicMsg "Got EOS in START_MEMO",
             some ⟨"", t.tokenLine, t.tokenColumn, 0, 0⟩⟩ t

/-- From transitionFromGATHER_MODULE: gather the module name after the opening
brace up to whitespace (consumed) or a closing brace (not consumed). -/
def gatherModuleLoop : Nat → Tokenizer → Tokenizer
  | 0, t => t
  | fuel + 1, t =>
    if t.inputPos < t.input.length then
      let ch := t.input.getD t.inputPos ' '
      let t := advancePosition t 1
      if isWhitespace ch then t
      else if ch = '\x7d' then advancePosition t (-1)
      else gatherModuleLoop fuel (writeCh t ch)
    else t

def transitionFromGATHER_MODULE (t : Tokenizer) : TokRes :=
  let t := noteStartToken t
  let t := gatherModuleLoop (tokFuel t) t
  .tok ⟨.startModule, t.tokenString, getTokenLocation t⟩ t

/-- From transitionFromGATHER_TRIPLE_QUOTE_STRING, including the greedy rule:
a closing run of three delimiters immediately followed by another delimiter
contributes its first character to the content and scanning continues. -/
def transitionFromGATHER_TRIPLE_QUOTE_STRING (delim : Char) :
    Nat → Tokenizer → TokRes
  | 0, _ => .dry
  | fuel + 1, t =>
    if t.inputPos < t.input.length then
      let ch := t.input.getD t.inputPos ' '
      if ch == delim && isTripleQuote t t.inputPos ch then
        if t.inputPos + 3 < t.input.length ∧
            t.input.getD (t.inputPos + 3) ' ' = delim then
          -- greedy mode: take this quote as content and keep scanning
          let t := advancePosition t 1
          let t := writeCh t delim
          transitionFromGATHER_TRIPLE_QUOTE_STRING delim fuel t
        else
          let t := advancePosition t 3
          .tok ⟨.string, t.tokenString, getTokenLocation t⟩ t
      else
        let t := advancePosition t 1
        let t := writeCh t ch
        transitionFromGATHER_TRIPLE_QUOTE_STRING delim fuel t
    else
      if t.streaming then .deferred t
      else
        .fail ⟨.forthicMsg "Unterminated string",
               some ⟨"", t.tokenLine, t.tokenColumn, 0, 0⟩⟩ t

/-- Triple-quote entry point: note the token start first, as the source does. -/
def gatherTripleQuoteString (t : Tokenizer) (delim : Char) : TokRes :=
  let t := noteStartToken t
  transitionFromGATHER_TRIPLE_QUOTE_STRING delim (tokFuel t) t

/-- From transitionFromGATHER_STRING: single-delimiter strings terminate at
the first occurrence of the opening delimiter; no escapes. -/
def transitionFromGATHER_STRING (delim : Char) : Nat → Tokenizer → TokRes
  | 0, _ => .dry
  | fuel + 1, t =>
    if t.inputPos < t.input.length then
      let ch := t.input.getD t.inputPos ' '
      let t := advancePosition t 1
      if ch == delim then
        .tok ⟨.string, t.tokenString, getTokenLocation t⟩ t
      else
        transitionFromGATHER_STRING delim fuel (writeCh t ch)
    else
      if t.streaming then .deferred t
      else
        .fail ⟨.forthicMsg "Unterminated string",
               some ⟨"", t.tokenLine, t.tokenColumn, 0, 0⟩⟩ t

def gatherString (t : Tokenizer) (delim : Char) : TokRes :=
  let t := noteStartToken t
  transitionFromGATHER_STRING delim (tokFuel t) t

/-- Inner loop of the RFC 9557 exception in transitionFromGATHER_WORD: once an
opening bracket follows a lexeme containing a capital T, swallow characters up
to and including the closing bracket. -/
def gatherWordTZ : Nat → Tokenizer → Tokenizer
  | 0, t => t
  | fuel + 1, t =>
    if t.inputPos < t.input.length then
      let ch := t.input.getD t.inputPos ' '
      let t := advancePosition t 1
      let t := writeCh t ch
      if ch = ']' then t
      else gatherWordTZ fuel t
    else t

/-- From transitionFromGATHER_WORD: accumulate until whitespace or one of the
terminator characters, with the datetime bracket exception. -/
def gatherWordLoop : Nat → Tokenizer → Tokenizer
  | 0, t => t
  | fuel + 1, t =>
    if t.inputPos < t.input.length then
      let ch := t.input.getD t.inputPos ' '
      let t := advancePosition t 1
      if isWhitespace ch then t
      else if [';', '\x7b', '\x7d', '#'].contains ch then advancePosition t (-1)
      else if ch = '[' then
        if strContains t.tokenString 'T' then
          gatherWordTZ (tokFuel t) (writeCh t ch)
        else advancePosition t (-1)
      else if ch = ']' then advancePosition t (-1)
      else gatherWordLoop fuel (writeCh t ch)
    else t

def transitionFromGATHER_WORD (t : Tokenizer) : TokRes :=
  let t := noteStartToken t
  let t := gatherWordLoop (tokFuel t) t
  .tok ⟨.word, t.tokenString, getTokenLocation t⟩ t

/-- From transitionFromGATHER_DOT_SYMBOL: gather the full lexeme, emit it as a
WORD when it is just the dot, otherwise as a DOT_SYMBOL with the dot
stripped. -/
def gatherDotLoop : Nat → Tokenizer → String → String × Tokenizer
  | 0, t, acc => (acc, t)
  | fuel + 1, t, acc =>
    if t.inputPos < t.input.length then
      let ch := t.input.getD t.inputPos ' '
      let t := advancePosition t 1
      if isWhitespace ch then (acc, t)
      else if [';', '[', ']', '\x7b', '\x7d', '#'].contains ch then
        (acc, advancePosition t (-1))
      else gatherDotLoop fuel (writeCh t ch) (acc.push ch)
    else (acc, t)

def transitionFromGATHER_DOT_SYMBOL (t : Tokenizer) : TokRes :=
  let t := noteStartToken t
  match gatherDotLoop (tokFuel t) t "" with
  | (fullToken, t) =>
    if fullToken.length < 2 then
      .tok ⟨.word, fullToken, getTokenLocation t⟩ t
    else
      .tok ⟨.dotSymbol, fullToken.drop 1, getTokenLocation t⟩ t

/-- From transitionFromSTART: the dispatcher of the tokenizer state machine.
Branch order follows the source exactly. -/
def transitionFromSTART : Nat → Tokenizer → TokRes
  | 0, _ => .dry
  | fuel + 1, t =>
    if t.inputPos < t.input.length then
      let ch := t.input.getD t.inputPos ' '
      let t := noteStartToken t
      let t := advancePosition t 1
      if isWhitespace ch then transitionFromSTART fuel t
      else if ch = '#' then transitionFromCOMMENT t
      else if ch = ':' then transitionFromSTART_DEFINITION (tokFuel t) t
      else if isStartMemo t (t.inputPos - 1) then
        -- skip over the colon of the at-colon opener
        transitionFromSTART_MEMO (tokFuel t) (advancePosition t 1)
      else if ch = ';' then
        let t := writeCh t ch
        .tok ⟨.endDef, String.singleton ch, getTokenLocation t⟩ t
      else if ch = '[' then
        let t := writeCh t ch
        .tok ⟨.startArray, String.singleton ch, getTokenLocation t⟩ t
      else if ch = ']' then
        let t := writeCh t ch
        .tok ⟨.endArray, String.singleton ch, getTokenLocation t⟩ t
      else if ch = '\x7b' then
        transitionFromGATHER_MODULE t
      else if ch = '\x7d' then
        let t := writeCh t ch
        .tok ⟨.endModule, String.singleton ch, getTokenLocation t⟩ t
      else if isTripleQuote t (t.inputPos - 1) ch then
        gatherTripleQuoteString (advancePosition t 2) ch
      else if isQuote ch then
        gatherString t ch
      else if ch = '.' then
        transitionFromGATHER_DOT_SYMBOL (advancePosition t (-1))
      else
        transitionFromGATHER_WORD (advancePosition t (-1))
    else
      .tok ⟨.eos, "", getTokenLocation t⟩ t

/-- From NextToken: clear the token string and run the state machine. -/
def nextToken (t : Tokenizer) : TokRes :=
  transitionFromSTART (tokFuel t) (clearTokenString t)

/-- Convenience used in theorem statements: the kinds and texts of the tokens
of an input, up to and including the EOS token; none when the tokenizer
reports an error or defers. -/
def tokenizeKinds : Nat → Tokenizer → Option (List (TokenType × String))
  | 0, _ => none
  | fuel + 1, t =>
    match nextToken t with
    | .tok token t' =>
      if token.kind = .eos then some [(token.kind, token.text)]
      else
        match tokenizeKinds fuel t' with
        | some rest => some ((token.kind, token.text) :: rest)
        | none => none
    | _ => none

def tokenizeAll (code : String) : Option (List (TokenType × String)) :=
  let t := newTokenizer code none false
  tokenizeKinds (tokFuel t) t

/-! ## Values -/

/-- Exact fraction standing in for a Go float64 value.  The fraction is kept
unnormalised so that every operation reduces definitionally; num/den is the
represented value.  Binary64 rounding is not modelled: every float the
verified programs produce is integer-valued, where binary64 arithmetic is
exact and coincides with fraction arithmetic. -/
structure FloatV where
  num : Int
  den : Int
deriving Repr, DecidableEq

/-- Conversion of an integer operand (float64(v) in toNumber). -/
def FloatV.ofInt (n : Int) : FloatV := ⟨n, 1⟩

/-- Exact float64 addition on the represented values. -/
def FloatV.add (a b : FloatV) : FloatV :=
  ⟨a.num * b.den + b.num * a.den, a.den * b.den⟩

/-- Runtime values (the dynamically typed interface values of the Go code).
Go float64 values are modelled as exact fractions (FloatV).  A Variable
cell is modelled by its name/contents pair (varCell); within the modelled
core, variable contents are never mutated, so cell identity is unobservable.
The three date/time value forms carry the parsed data only as far as the
claims need. -/
inductive Value where
  | null
  | int (n : Int)
  | float (q : FloatV)
  | bool (b : Bool)
  | str (s : String)
  | list (elems : List Value)
  | token (tok : Token)
  | varCell (vname : String) (vvalue : Value)
  | timeOfDay (hours minutes : Int)
  | dateVal (year month day : Int)
  | zonedDT (text : String) (zone : String)
deriving Repr

/-! ## Words -/

/-- Behaviours of ModuleWord handlers (host-provided Go functions).  mathPlus
is the plus word of the math module source; failWith models a handler that
returns an error, the shape the word-error-handler tests install. -/
inductive NativeBehavior where
  | mathPlus
  | failWith (e : FErr)
deriving Repr

/-- The word taxonomy, one constructor per concrete Word type of the source:
PushValueWord, DefinitionWord, EndArrayWord, StartModuleWord, EndModuleWord,
ModuleMemoWord, ModuleMemoBangWord, ModuleMemoBangAtWord, ExecuteWord and
ModuleWord.  The mutable memo cells live in a heap in the interpreter state
and are referenced by index, mirroring the Go pointers.  The BaseWord
location and display-string metadata are not modelled: no modelled operation
reads them (they only feed error reporting paths the claims do not touch).
Error-handler lists are modelled as functions from the error to the optional
error the handler returns; the Go handlers additionally receive the word and
the interpreter, which the routing logic under verification never reads. -/
inductive Wrd where
  | pushValue (name : String) (value : Value)
  | definition (name : String) (body : List Wrd)
      (handlers : List (FErr → Option FErr))
  | endArrayWord
  | startModuleWord (name : String)
  | endModuleWord
  | memoWord (memoId : Nat) (name : String)
  | memoBangWord (memoId : Nat) (name : String)
  | memoBangAtWord (memoId : Nat) (name : String)
  | executeWord (name : String) (target : Wrd)
  | moduleWord (name : String) (handlers : List (FErr → Option FErr))
      (behavior : NativeBehavior)

/-- GetName of a word. -/
def wordName : Wrd → String
  | .pushValue n _ => n
  | .definition n _ _ => n
  | .endArrayWord => "]"
  | .startModuleWord n => n
  | .endModuleWord => "\x7d"
  | .memoWord _ n => n
  | .memoBangWord _ n => n
  | .memoBangAtWord _ n => n
  | .executeWord n _ => n
  | .moduleWord n _ _ => n

/-- The definition currently being compiled (Go curDefinition, a
DefinitionWord under construction; its handler list is empty while
compiling). -/
structure DefData where
  name : String
  words : List Wrd

/-- State of one ModuleMemoWord cell (Go fields word, hasValue, value). -/
structure MemoData where
  word : Wrd
  hasValue : Bool
  value : Value

/-- Module contents, from the Go Module struct.  Child modules are referred
to by heap index (Go stores pointers); maps are modelled as association
lists with insert-or-replace update.  The interp back-reference is not
modelled (the modelled core never reads it). -/
structure ModuleData where
  name : String
  words : List Wrd
  exportable : List String
  vars : List (String × Value)
  modules : List (String × Nat)
  modulePrefixes : List (String × List String)
  forthicCode : String

/-- From NewModule with no source code argument. -/
def newModule (name : String) : ModuleData :=
  { name := name, words := [], exportable := [], vars := []
    modules := [], modulePrefixes := [], forthicCode := "" }

/-- Interpreter state, from the Go Interpreter struct.  Lists standing for Go
slices keep the top at the head (the Go slices keep it at the end); heap and
memos are the explicit stores behind Go module and memo-cell pointers. -/
structure Interp where
  stack : List Value
  heap : List ModuleData
  appModuleId : Nat
  moduleStack : List Nat
  registeredMods : List (String × Nat)
  tokenizerStack : List Tokenizer
  previousToken : Option Token
  isCompiling : Bool
  isMemoDefinition : Bool
  curDefinition : Option DefData
  memos : List MemoData
  literalHandlers : List (String → Option Value)
  timezone : String

/-- Outcome of a state-transforming operation: a value with the new state, a
Go error return with the new state, a Go panic (which abandons the state), or
fuel exhaustion (corresponding to no Go behaviour). -/
inductive Res (α : Type) where
  | ok (val : α) (s : Interp)
  | err (e : FErr) (s : Interp)
  | panic (e : FErr)
  | dry

/-! ## Association-list helpers (Go map semantics) -/

def insertA {α : Type} (l : List (String × α)) (k : String) (v : α) :
    List (String × α) :=
  match l with
  | [] => [(k, v)]
  | p :: rest => if p.1 = k then (k, v) :: rest else p :: insertA rest k v

/-! ## Stack, module stack, heaps -/

def stackPush (s : Interp) (v : Value) : Interp :=
  { s with stack := v :: s.stack }

/-- Location attached to stack-underflow panics: the current token location
of the top tokenizer, when one exists (Interpreter.StackPop). -/
def tokenizerLoc (s : Interp) : Option CodeLocation :=
  match s.tokenizerStack with
  | [] => none
  | tk :: _ => some (getTokenLocation tk)

/-- From Interpreter.StackPop: popping an empty stack panics with a
StackUnderflowError carrying the current token location. -/
def stackPop (s : Interp) : Res Value :=
  match s.stack with
  | [] => .panic ⟨.stackUnderflow, tokenizerLoc s⟩
  | v :: rest => .ok v { s with stack := rest }

/-- From Interpreter.StackPeek. -/
def stackPeek (s : Interp) : Res Value :=
  match s.stack with
  | [] => .panic ⟨.stackUnderflow, tokenizerLoc s⟩
  | v :: _ => .ok v s

/-- Top of the module stack (Go CurModule reads the last slice element; an
empty module stack would be a Go index panic, unreachable because the stack
always contains the app module). -/
def curModuleId (s : Interp) : Nat :=
  s.moduleStack.headD s.appModuleId

def moduleStackPush (s : Interp) (id : Nat) : Interp :=
  { s with moduleStack := id :: s.moduleStack }

/-- From Interpreter.ModuleStackPop: popping the bottom (app) module is a
fatal error (Go panic with a plain ForthicError). -/
def moduleStackPop (s : Interp) : Res Nat :=
  match s.moduleStack with
  | [] => .panic ⟨.forthicMsg "Cannot pop app module from module stack", none⟩
  | [_] => .panic ⟨.forthicMsg "Cannot pop app module from module stack", none⟩
  | id :: rest => .ok id { s with moduleStack := rest }

/-- Read a module from the heap.  An invalid index is unrepresentable in the
Go original (pointers); the default is never reached in verified states. -/
def getMod (s : Interp) (id : Nat) : ModuleData :=
  s.heap.getD id (newModule "")

def setMod (s : Interp) (id : Nat) (m : ModuleData) : Interp :=
  { s with heap := s.heap.set id m }

/-- Read a memo cell from the heap; same remark as for getMod. -/
def getMemo (s : Interp) (id : Nat) : MemoData :=
  s.memos.getD id ⟨.pushValue "" .null, false, .null⟩

def setMemo (s : Interp) (id : Nat) (m : MemoData) : Interp :=
  { s with memos := s.memos.set id m }

/-! ## Module operations -/

/-- From Module.FindDictionaryWord: search words from newest to oldest, so the
last added word of a name wins. -/
def findDictionaryWord (words : List Wrd) (nm : String) : Option Wrd :=
  words.reverse.find? (fun w => wordName w == nm)

/-- From Module.FindVariable: a present variable resolves to a PushValueWord
that pushes the Variable cell itself, not its contents. -/
def findVariable (m : ModuleData) (varName : String) : Option Wrd :=
  match m.vars.lookup varName with
  | some v => some (.pushValue varName (.varCell varName v))
  | none => none

/-- From Module.FindWord: dictionary words first, then variables. -/
def moduleFindWord (m : ModuleData) (nm : String) : Option Wrd :=
  match findDictionaryWord m.words nm with
  | some w => some w
  | none => findVariable m nm

/-- From Module.AddWord. -/
def moduleAddWord (m : ModuleData) (w : Wrd) : ModuleData :=
  { m with words := m.words ++ [w] }

/-- From Module.ExportableWords: the words whose names appear in the
exportable list, in dictionary order. -/
def exportableWords (m : ModuleData) : List Wrd :=
  m.words.filter (fun w => m.exportable.contains (wordName w))

/-- From Variable.Dup: a fresh cell with the same name and value (cell
identity is unobservable in the value model, so this is the identity on the
stored pair). -/
def dupVariable (v : String × Value) : String × Value := (v.1, v.2)

/-- From Module.Dup: copy the words and exportable lists, duplicate each
variable, share the child-module references, and start with empty
modulePrefixes (NewModule). -/
def dupModule (m : ModuleData) : ModuleData :=
  { name := m.name
    words := m.words
    exportable := m.exportable
    vars := m.vars.map dupVariable
    modules := m.modules
    modulePrefixes := []
    forthicCode := m.forthicCode }

/-- From Module.RegisterModule: record the child module under its name and
remember the prefix used for it. -/
def moduleRegisterModule (m : ModuleData) (moduleName : String) (pfx : String)
    (id : Nat) : ModuleData :=
  let prefixes := (m.modulePrefixes.lookup moduleName).getD []
  let prefixes := if prefixes.contains pfx then prefixes else prefixes ++ [pfx]
  { m with
    modules := insertA m.modules moduleName id
    modulePrefixes := insertA m.modulePrefixes moduleName prefixes }

/-- Loop body of Module.ImportModule: add one exportable word to the host —
directly for an empty prefix, wrapped in a delegating ExecuteWord named
prefix.name otherwise. -/
def importWordStep (hostId : Nat) (pfx : String) (acc : Interp) (w : Wrd) :
    Interp :=
  let host := getMod acc hostId
  if pfx = "" then setMod acc hostId (moduleAddWord host w)
  else
    setMod acc hostId
      (moduleAddWord host (.executeWord (pfx ++ "." ++ wordName w) w))

/-- From Module.ImportModule: deep-duplicate the source module (allocating a
fresh heap slot), add its exportable words to the host, and register the
duplicate as a child of the host. -/
def importModuleIntoModule (s : Interp) (hostId : Nat) (pfx : String)
    (srcId : Nat) : Interp :=
  let dupId := s.heap.length
  let s1 := { s with heap := s.heap ++ [dupModule (getMod s srcId)] }
  let ws := exportableWords (getMod s1 dupId)
  let s2 := ws.foldl (importWordStep hostId pfx) s1
  setMod s2 hostId
    (moduleRegisterModule (getMod s2 hostId) (getMod s2 srcId).name pfx dupId)

/-- From Interpreter.RegisterModule (the SetInterp back-reference is not
modelled). -/
def registerModuleInterp (s : Interp) (id : Nat) : Interp :=
  { s with registeredMods := insertA s.registeredMods (getMod s id).name id }

/-- From Interpreter.ImportModule: register the module, then import it into
the app module. -/
def importModuleInterp (s : Interp) (id : Nat) (pfx : String) : Interp :=
  importModuleIntoModule (registerModuleInterp s id) s.appModuleId pfx id

/-- From Module.AddMemoWords: allocate the shared memo cell and append the
memo word and its bang / bang-at refresh variants to the module. -/
def addMemoWords (s : Interp) (modId : Nat) (d : DefData) : Interp :=
  let memoId := s.memos.length
  let s1 := { s with memos := s.memos ++ [⟨.definition d.name d.words [], false, .null⟩] }
  let m := getMod s1 modId
  setMod s1 modId
    { m with
      words := m.words ++
        [.memoWord memoId d.name,
         .memoBangWord memoId (d.name ++ "!"),
         .memoBangAtWord memoId (d.name ++ "!@")] }

/-! ## Name resolution -/

/-- Module-stack part of Interpreter.FindWord: search from the top of the
module stack down to the bottom. -/
def findWordInStack (s : Interp) (nm : String) : List Nat → Option Wrd
  | [] => none
  | id :: rest =>
    match moduleFindWord (getMod s id) nm with
    | some w => some w
    | none => findWordInStack s nm rest

/-- From Interpreter.findLiteralWord: the first literal handler to parse the
name wraps the value in a fresh PushValueWord. -/
def findLiteralWord (handlers : List (String → Option Value)) (nm : String) :
    Option Wrd :=
  match handlers with
  | [] => none
  | h :: rest =>
    match h nm with
    | some v => some (.pushValue nm v)
    | none => findLiteralWord rest nm

/-- From Interpreter.FindWord: module stack top-to-bottom, then literal
handlers, else an unknown-word error. -/
def findWord (s : Interp) (nm : String) : Except FErr Wrd :=
  match findWordInStack s nm s.moduleStack with
  | some w => .ok w
  | none =>
    match findLiteralWord s.literalHandlers nm with
    | some w => .ok w
    | none => .error ⟨.unknownWord nm, none⟩

/-! ## Error handler routing -/

def isIntentionalStop (e : FErr) : Bool :=
  match e.kind with
  | .intentionalStop _ => true
  | _ => false

/-- Handler loop of BaseWord.TryErrorHandlers: the first handler returning no
error stops the search; when none succeeds the original error is returned. -/
def runHandlers (e : FErr) : List (FErr → Option FErr) → Option FErr
  | [] => some e
  | h :: rest =>
    match h e with
    | none => none
    | some _ => runHandlers e rest

/-- From BaseWord.TryErrorHandlers: IntentionalStopError bypasses all
handlers; otherwise handlers run in registration order.  The result none
means handled; some e means the original error e propagates. -/
def tryErrorHandlers (handlers : List (FErr → Option FErr)) (e : FErr) :
    Option FErr :=
  if isIntentionalStop e then some e
  else runHandlers e handlers

/-! ## Native behaviours -/

/-- From toNumber in the math module: ints and floats convert, everything
else (including nil) is an error. -/
def toNumber : Value → Option FloatV
  | .int n => some (.ofInt n)
  | .float q => some q
  | _ => none

/-- From MathModule.plus: with an array on top, sum its numeric entries
(skipping nils and non-numbers) as a float; otherwise pop a second value and
push the float sum, or 0.0 when either operand is not a number. -/
def mathPlusExec (s : Interp) : Res Unit :=
  match stackPop s with
  | .ok b s1 =>
    match b with
    | .list arr =>
      let result := arr.foldl
        (fun acc val =>
          match val with
          | .null => acc
          | v =>
            match toNumber v with
            | some n => acc.add n
            | none => acc) (⟨0, 1⟩ : FloatV)
      .ok () (stackPush s1 (.float result))
    | _ =>
      match stackPop s1 with
      | .ok a s2 =>
        match toNumber a, toNumber b with
        | some numA, some numB => .ok () (stackPush s2 (.float (numA.add numB)))
        | _, _ => .ok () (stackPush s2 (.float ⟨0, 1⟩))
      | .err e s2 => .err e s2
      | .panic e => .panic e
      | .dry => .dry
  | .err e s1 => .err e s1
  | .panic e => .panic e
  | .dry => .dry

/-- Dispatch a ModuleWord's host function. -/
def runNative (b : NativeBehavior) (s : Interp) : Res Unit :=
  match b with
  | .mathPlus => mathPlusExec s
  | .failWith e => .err e s

/-! ## Word execution -/

/-- Sentinel test of EndArrayWord.Execute: a Token value whose type is
START_ARRAY. -/
def isStartArrayV : Value → Bool
  | .token tok => tok.kind == .startArray
  | _ => false

/-- Stack traversal of EndArrayWord.Execute: the values popped before the
sentinel (in pop order) and the stack below the sentinel; none when no
sentinel exists, in which case the Go loop pops the whole stack and the next
StackPop panics with a stack underflow. -/
def collectToSentinel : List Value → Option (List Value × List Value)
  | [] => none
  | v :: rest =>
    if isStartArrayV v then some ([], rest)
    else
      match collectToSentinel rest with
      | some (items, below) => some (v :: items, below)
      | none => none

/-- From EndArrayWord.Execute: pop to the sentinel, discard it, reverse the
popped items into push order and push them as one sequence; with no sentinel
anywhere the stack underflow surfaces as a panic. -/
def endArrayExec (s : Interp) : Res Unit :=
  match collectToSentinel s.stack with
  | none => .panic ⟨.stackUnderflow, tokenizerLoc s⟩
  | some (items, below) =>
    .ok () { s with stack := .list items.reverse :: below }

/-- From StartModuleWord.Execute: an empty name pushes the app module; a
known child of the current module is pushed; otherwise a new module is
created, registered under the current module, additionally registered with
the interpreter when the current module's name is empty (the app module),
and pushed. -/
def startModuleExec (s : Interp) (nm : String) : Res Unit :=
  if nm = "" then .ok () (moduleStackPush s s.appModuleId)
  else
    match (getMod s (curModuleId s)).modules.lookup nm with
    | some id => .ok () (moduleStackPush s id)
    | none =>
      let newId := s.heap.length
      let s1 := { s with heap := s.heap ++ [newModule nm] }
      let s2 := setMod s1 (curModuleId s1)
        (moduleRegisterModule (getMod s1 (curModuleId s1)) nm nm newId)
      let s3 :=
        if (getMod s2 (curModuleId s2)).name = "" then
          registerModuleInterp s2 newId
        else s2
      .ok () (moduleStackPush s3 newId)

/-- The three mutually recursive execution shapes, merged into one task type
so that the recursion is structural on fuel and kernel-reducible: executing a
single word (Word.Execute), executing a definition body with its word's
error handlers (DefinitionWord.Execute), and refreshing a memo cell
(ModuleMemoWord.Refresh). -/
inductive ExecTask where
  | one (w : Wrd)
  | body (ws : List Wrd) (handlers : List (FErr → Option FErr))
  | refresh (memoId : Nat)

/-- Execution, translated case by case from the Execute methods of the word
types.  Each recursive call consumes one unit of fuel. -/
def executeAux : Nat → ExecTask → Interp → Res Unit
  | 0, _, _ => .dry
  | fuel + 1, task, s =>
    match task with
    | .one w =>
      match w with
      | .pushValue _ v => .ok () (stackPush s v)
      | .definition _ body handlers => executeAux fuel (.body body handlers) s
      | .endArrayWord => endArrayExec s
      | .startModuleWord nm => startModuleExec s nm
      | .endModuleWord =>
        match moduleStackPop s with
        | .ok _ s' => .ok () s'
        | .err e s' => .err e s'
        | .panic e => .panic e
        | .dry => .dry
      | .memoWord id _ =>
        let m := getMemo s id
        if m.hasValue then .ok () (stackPush s m.value)
        else
          match executeAux fuel (.refresh id) s with
          | .ok _ s' => .ok () (stackPush s' (getMemo s' id).value)
          | r => r
      | .memoBangWord id _ => executeAux fuel (.refresh id) s
      | .memoBangAtWord id _ =>
        match executeAux fuel (.refresh id) s with
        | .ok _ s' => .ok () (stackPush s' (getMemo s' id).value)
        | r => r
      | .executeWord _ target => executeAux fuel (.one target) s
      | .moduleWord _ handlers b =>
        match runNative b s with
        | .err e s' =>
          match tryErrorHandlers handlers e with
          | none => .ok () s'
          | some _ => .err e s'
        | r => r
    | .body ws handlers =>
      match ws with
      | [] => .ok () s
      | w :: rest =>
        match executeAux fuel (.one w) s with
        | .ok _ s' => executeAux fuel (.body rest handlers) s'
        | .err e s' =>
          match tryErrorHandlers handlers e with
          | none => executeAux fuel (.body rest handlers) s'
          | some _ => .err e s'
        | r => r
    | .refresh id =>
      match executeAux fuel (.one (getMemo s id).word) s with
      | .ok _ s' =>
        match stackPop s' with
        | .ok v s'' =>
          .ok () (setMemo s'' id { getMemo s'' id with value := v, hasValue := true })
        | .err e s'' => .err e s''
        | .panic e => .panic e
        | .dry => .dry
      | r => r

/-- Word.Execute. -/
def execute (fuel : Nat) (w : Wrd) (s : Interp) : Res Unit :=
  executeAux fuel (.one w) s

/-- DefinitionWord.Execute body loop (with the definition's handlers). -/
def executeBody (fuel : Nat) (ws : List Wrd)
    (handlers : List (FErr → Option FErr)) (s : Interp) : Res Unit :=
  executeAux fuel (.body ws handlers) s

/-- ModuleMemoWord.Refresh. -/
def memoRefresh (fuel : Nat) (id : Nat) (s : Interp) : Res Unit :=
  executeAux fuel (.refresh id) s

/-! ## Token handling -/

/-- Append a word to the definition being compiled; none when no definition
is under construction (the Go code would dereference a nil pointer there,
unreachable because isCompiling implies a current definition). -/
def appendToDef (s : Interp) (w : Wrd) : Option Interp :=
  match s.curDefinition with
  | some d => some { s with curDefinition := some ⟨d.name, d.words ++ [w]⟩ }
  | none => none

/-- From Interpreter.handleWord: while compiling, append the word to the
current definition (only); otherwise execute it now.  The SetLocation call on
the appended word is not modelled, because word locations are never read by
the modelled core. -/
def handleWord (fuel : Nat) (w : Wrd) (loc : CodeLocation) (s : Interp) :
    Res Unit :=
  if s.isCompiling then
    match appendToDef s w with
    | some s' => .ok () s'
    | none => .panic ⟨.forthicMsg "nil current definition", none⟩
  else execute fuel w s

/-- From Interpreter.handleStartModuleToken: module words are immediate —
when compiling the word is appended to the current definition AND executed
now. -/
def handleStartModuleToken (fuel : Nat) (tok : Token) (s : Interp) : Res Unit :=
  let w : Wrd := .startModuleWord tok.text
  if s.isCompiling then
    match appendToDef s w with
    | some s' => execute fuel w s'
    | none => .panic ⟨.forthicMsg "nil current definition", none⟩
  else execute fuel w s

/-- From Interpreter.handleEndModuleToken: immediate, like the start-module
token. -/
def handleEndModuleToken (fuel : Nat) (tok : Token) (s : Interp) : Res Unit :=
  let w : Wrd := .endModuleWord
  if s.isCompiling then
    match appendToDef s w with
    | some s' => execute fuel w s'
    | none => .panic ⟨.forthicMsg "nil current definition", none⟩
  else execute fuel w s

/-- From Interpreter.handleStartDefinitionToken: a definition start while
already compiling is a missing-semicolon error at the previous token's
location (the Go code dereferences previousToken, which is always set
there). -/
def handleStartDefinitionToken (tok : Token) (s : Interp) : Res Unit :=
  if s.isCompiling then
    match s.previousToken with
    | some pt => .err ⟨.missingSemicolon, some pt.location⟩ s
    | none => .panic ⟨.forthicMsg "nil previous token", none⟩
  else
    .ok () { s with
      curDefinition := some ⟨tok.text, []⟩
      isCompiling := true
      isMemoDefinition := false }

/-- From Interpreter.handleStartMemoToken. -/
def handleStartMemoToken (tok : Token) (s : Interp) : Res Unit :=
  if s.isCompiling then
    match s.previousToken with
    | some pt => .err ⟨.missingSemicolon, some pt.location⟩ s
    | none => .panic ⟨.forthicMsg "nil previous token", none⟩
  else
    .ok () { s with
      curDefinition := some ⟨tok.text, []⟩
      isCompiling := true
      isMemoDefinition := true }

/-- From Interpreter.handleEndDefinitionToken: a terminator outside a
definition is an extra-semicolon error; otherwise install the finished
definition into the current module (as the three memo words when the
definition was opened with the memo opener) and leave compile mode. -/
def handleEndDefinitionToken (tok : Token) (s : Interp) : Res Unit :=
  match s.isCompiling, s.curDefinition with
  | true, some d =>
    let s' :=
      if s.isMemoDefinition then addMemoWords s (curModuleId s) d
      else
        setMod s (curModuleId s)
          (moduleAddWord (getMod s (curModuleId s)) (.definition d.name d.words []))
    .ok () { s' with isCompiling := false }
  | _, _ => .err ⟨.extraSemicolon, some tok.location⟩ s

/-- From Interpreter.handleWordToken: resolve the name, then route the found
word. -/
def handleWordToken (fuel : Nat) (tok : Token) (s : Interp) : Res Unit :=
  match findWord s tok.text with
  | .error e => .err e s
  | .ok w => handleWord fuel w tok.location s

/-- From Interpreter.handleToken: dispatch on the token type.  At end of
stream, still compiling means a missing-semicolon error located at the
previous token (or without location when there is none). -/
def handleToken (fuel : Nat) (tok : Token) (s : Interp) : Res Unit :=
  match tok.kind with
  | .string => handleWord fuel (.pushValue "<string>" (.str tok.text)) tok.location s
  | .comment => .ok () s
  | .startArray =>
    handleWord fuel (.pushValue "<start_array_token>" (.token tok)) tok.location s
  | .endArray => handleWord fuel .endArrayWord tok.location s
  | .startModule => handleStartModuleToken fuel tok s
  | .endModule => handleEndModuleToken fuel tok s
  | .startDef => handleStartDefinitionToken tok s
  | .startMemo => handleStartMemoToken tok s
  | .endDef => handleEndDefinitionToken tok s
  | .dotSymbol => handleWord fuel (.pushValue "<dot-symbol>" (.str tok.text)) tok.location s
  | .word => handleWordToken fuel tok s
  | .eos =>
    if s.isCompiling then
      match s.previousToken with
      | some pt => .err ⟨.missingSemicolon, some pt.location⟩ s
      | none => .err ⟨.missingSemicolon, none⟩ s
    else .ok () s

/-! ## Run loop -/

/-- From Interpreter.runWithTokenizer: pull a token from the top tokenizer,
handle it, stop at end of stream, otherwise remember the token as the
previous token and continue.  A tokenizer error is returned as the run error;
the streaming nil/nil defer would make the Go code dereference a nil token
(streaming is false on this path, so it cannot happen) and is modelled as a
panic. -/
def runLoop : Nat → Interp → Res Unit
  | 0, _ => .dry
  | fuel + 1, s =>
    match s.tokenizerStack with
    | [] => .panic ⟨.forthicMsg "no tokenizer", none⟩
    | tk :: rest =>
      match nextToken tk with
      | .fail e tk' => .err e { s with tokenizerStack := tk' :: rest }
      | .deferred _ => .panic ⟨.forthicMsg "nil token", none⟩
      | .dry => .dry
      | .tok token tk' =>
        let s' := { s with tokenizerStack := tk' :: rest }
        match handleToken fuel token s' with
        | .ok _ s'' =>
          if token.kind = .eos then .ok () s''
          else runLoop fuel { s'' with previousToken := some token }
        | r => r

def popTokenizer (s : Interp) : Interp :=
  { s with tokenizerStack := s.tokenizerStack.tail }

/-- From Interpreter.Run: push a fresh non-streaming tokenizer, run the loop,
pop the tokenizer again.  A Go panic unwinds past the pop, which the panic
outcome models by dropping the state. -/
def run (fuel : Nat) (code : String) (s : Interp) : Res Unit :=
  let tk := newTokenizer code none false
  let s1 := { s with tokenizerStack := tk :: s.tokenizerStack }
  match runLoop fuel s1 with
  | .ok _ s' => .ok () (popTokenizer s')
  | .err e s' => .err e (popTokenizer s')
  | r => r

/-! ## Literal handlers -/

def digitsToNat (ds : List Char) : Nat :=
  ds.foldl (fun acc c => acc * 10 + (c.toNat - '0'.toNat)) 0

/-- Model of strconv.ParseInt(str, 10, 64): optional sign, nonempty decimal
digits, 64-bit signed range. -/
def parseInt64 (str : String) : Option Int :=
  let (sign, ds) : Int × List Char :=
    match str.data with
    | '+' :: rest => (1, rest)
    | '-' :: rest => (-1, rest)
    | rest => (1, rest)
  if ds.isEmpty then none
  else if ds.all Char.isDigit then
    let n : Int := sign * (digitsToNat ds : Int)
    if -(2 ^ 63) ≤ n ∧ n ≤ 2 ^ 63 - 1 then some n else none
  else none

/-- From ToBool: exactly TRUE or FALSE. -/
def toBoolLit (str : String) : Option Value :=
  if str = "TRUE" then some (.bool true)
  else if str = "FALSE" then some (.bool false)
  else none

/-- From ToInt: no decimal point, 64-bit parse, canonical round-trip via
FormatInt (Lean's Int toString produces the same canonical decimal form). -/
def toIntLit (str : String) : Option Value :=
  if strContains str '.' then none
  else
    match parseInt64 str with
    | none => none
    | some n => if toString n = str then some (.int n) else none

def breakAt (p : Char → Bool) : List Char → List Char × Option (List Char)
  | [] => ([], none)
  | c :: rest =>
    if p c then ([], some rest)
    else
      match breakAt p rest with
      | (pre, post) => (c :: pre, post)

/-- Model of strconv.ParseFloat for ordinary decimal forms (optional sign,
digits with an optional fraction, optional decimal exponent), as the exact
rational value.  Binary64 rounding, overflow to infinity, and the special
forms Inf/NaN and hexadecimal floats are not modelled; none of them can
reach the handler on the inputs the verified programs contain. -/
def parseDecFloat (str : String) : Option FloatV :=
  let (sign, cs) : Int × List Char :=
    match str.data with
    | '+' :: rest => (1, rest)
    | '-' :: rest => (-1, rest)
    | rest => (1, rest)
  let (mant, expPart) := breakAt (fun c => c = 'e' ∨ c = 'E') cs
  let (ip, fpOpt) := breakAt (fun c => c = '.') mant
  let fp := fpOpt.getD []
  if !(ip.all Char.isDigit) ∨ !(fp.all Char.isDigit) then none
  else if ip.isEmpty ∧ fp.isEmpty then none
  else
    let pw : Int := (10 : Int) ^ fp.length
    let base : FloatV := ⟨sign * ((digitsToNat ip : Int) * pw + (digitsToNat fp : Int)), pw⟩
    match expPart with
    | none => some base
    | some ec =>
      let (eneg, eds) : Bool × List Char :=
        match ec with
        | '+' :: r => (false, r)
        | '-' :: r => (true, r)
        | r => (false, r)
      if eds.isEmpty ∨ !(eds.all Char.isDigit) then none
      else
        let epw : Int := (10 : Int) ^ digitsToNat eds
        if eneg then some ⟨base.num, base.den * epw⟩
        else some ⟨base.num * epw, base.den⟩

/-- From ToFloat: must contain a decimal point and parse as a float. -/
def toFloatLit (str : String) : Option Value :=
  if !(strContains str '.') then none
  else (parseDecFloat str).map .float

/-- From ToTime: the anchored pattern of one or two hour digits, a colon, two
minute digits and an optional whitespace-separated AM/PM, with the AM/PM
adjustments and the bounds checks of the source. -/
def toTimeLit (str : String) : Option Value :=
  let cs := str.data
  let hds := cs.takeWhile Char.isDigit
  let rest1 := cs.dropWhile Char.isDigit
  if hds.length < 1 ∨ 2 < hds.length then none
  else
    match rest1 with
    | ':' :: rest2 =>
      let mds := rest2.takeWhile Char.isDigit
      let rest3 := rest2.dropWhile Char.isDigit
      if mds.length ≠ 2 then none
      else
        let meridiem : Option String :=
          match rest3 with
          | [] => some ""
          | _ =>
            let r := rest3.dropWhile (fun c => [' ', '\t', '\n', '\x0c', '\r'].contains c)
            if r = ['A', 'M'] then some "AM"
            else if r = ['P', 'M'] then some "PM"
            else none
        match meridiem with
        | none => none
        | some mer =>
          let hours : Int := (digitsToNat hds : Int)
          let minutes : Int := (digitsToNat mds : Int)
          let hours :=
            if mer = "PM" ∧ hours < 12 then hours + 12
            else if mer = "AM" ∧ hours = 12 then 0
            else if mer = "AM" ∧ 12 < hours then hours - 12
            else hours
          if 23 < hours ∨ 60 ≤ minutes then none
          else some (.timeOfDay hours minutes)
    | _ => none

/-- Split at every occurrence of a separator character (strings.Split). -/
def splitOnChar (c : Char) : List Char → List (List Char)
  | [] => [[]]
  | x :: rest =>
    if x = c then [] :: splitOnChar c rest
    else
      match splitOnChar c rest with
      | seg :: segs => (x :: seg) :: segs
      | [] => [[x]]

/-- From ToLiteralDate: the anchored year-month-day pattern with the three
wildcard groups defaulting to today in the configured zone (time.Now is
modelled by the today parameter; the normalisation time.Date applies to
out-of-range components is not modelled, the claims never build such a
value). -/
def toLiteralDateLit (today : Int × Int × Int) (str : String) : Option Value :=
  match (splitOnChar '-' str.data).map String.mk with
  | [a, b, c] =>
    let okA := a = "YYYY" ∨ (a.length = 4 ∧ a.data.all Char.isDigit)
    let okB := b = "MM" ∨ (b.length = 2 ∧ b.data.all Char.isDigit)
    let okC := c = "DD" ∨ (c.length = 2 ∧ c.data.all Char.isDigit)
    if okA ∧ okB ∧ okC then
      let y := if a = "YYYY" then today.1 else (digitsToNat a.data : Int)
      let mo := if b = "MM" then today.2.1 else (digitsToNat b.data : Int)
      let d := if c = "DD" then today.2.2 else (digitsToNat c.data : Int)
      some (.dateVal y mo d)
    else none
  | _ => none

def isLeapYear (y : Int) : Bool :=
  (y % 4 = 0 ∧ y % 100 ≠ 0) ∨ y % 400 = 0

def daysInMonth (y m : Int) : Int :=
  if m = 2 then (if isLeapYear y then 29 else 28)
  else if m = 4 ∨ m = 6 ∨ m = 9 ∨ m = 11 then 30
  else 31

/-- Acceptance of time.Parse with the plain layout 2006-01-02T15:04:05:
exact shape and component ranges (fractional seconds are not part of this
layout). -/
def plainDTOk (cs : List Char) : Bool :=
  match cs with
  | [y1, y2, y3, y4, '-', m1, m2, '-', d1, d2, 'T', h1, h2, ':', n1, n2, ':', s1, s2] =>
    if ([y1, y2, y3, y4, m1, m2, d1, d2, h1, h2, n1, n2, s1, s2].all Char.isDigit) then
      let y : Int := (digitsToNat [y1, y2, y3, y4] : Int)
      let mo : Int := (digitsToNat [m1, m2] : Int)
      let d : Int := (digitsToNat [d1, d2] : Int)
      let h : Int := (digitsToNat [h1, h2] : Int)
      let mi : Int := (digitsToNat [n1, n2] : Int)
      let sec : Int := (digitsToNat [s1, s2] : Int)
      1 ≤ mo ∧ mo ≤ 12 ∧ 1 ≤ d ∧ d ≤ daysInMonth y mo ∧ h ≤ 23 ∧ mi ≤ 59 ∧ sec ≤ 59
    else false
  | _ => false

/-- Acceptance of time.Parse with the RFC3339 layout: the plain part followed
by Z or a signed hh:mm offset (fractional seconds are not modelled; the
verified programs contain no datetime literals at all). -/
def rfc3339Ok (cs : List Char) : Bool :=
  plainDTOk (cs.take 19) &&
    (match cs.drop 19 with
     | ['Z'] => true
     | [sgn, h1, h2, ':', m1, m2] =>
       (sgn = '+' ∨ sgn = '-') ∧ ([h1, h2, m1, m2].all Char.isDigit)
     | _ => false)

/-- strings.LastIndex for a single character. -/
def lastIndexOfCh (cs : List Char) (c : Char) : Int :=
  match cs.reverse.findIdx? (· = c) with
  | none => -1
  | some i => (cs.length : Int) - 1 - i

/-- The offset-suffix test of ToZonedDateTime (regexp for a trailing signed
hh:mm offset). -/
def offsetSuffixOk (cs : List Char) : Bool :=
  match cs.drop (cs.length - 6) with
  | [sgn, h1, h2, ':', m1, m2] =>
    (sgn = '+' ∨ sgn = '-') ∧ ([h1, h2, m1, m2].all Char.isDigit)
  | _ => false

/-- From ToZonedDateTime: the branch structure of the source — bracketed IANA
zone (with or without an offset), trailing Z, trailing offset, or the plain
form assigned the interpreter's zone.  time.LoadLocation is modelled by the
validZone parameter; the produced value records the accepted text and the
zone label only (instant arithmetic and zone conversion are outside the scope
of the claims). -/
def toZonedDateTimeLit (validZone : String → Bool) (tz : String)
    (str : String) : Option Value :=
  if ¬ strContains str 'T' then none
  else
    let cs := str.data
    if strContains str '[' ∧ strEndsWith str "]" then
      let bracketStart := (cs.takeWhile (· ≠ '[')).length
      let afterBracket := cs.drop (bracketStart + 1)
      let tzName := String.mk (afterBracket.takeWhile (· ≠ ']'))
      if ¬ validZone tzName then none
      else
        let dtStr := cs.take bracketStart
        if dtStr.contains '+' ∨ 10 < lastIndexOfCh dtStr '-' then
          if rfc3339Ok dtStr then some (.zonedDT (String.mk dtStr) tzName) else none
        else if plainDTOk dtStr then some (.zonedDT (String.mk dtStr) tzName)
        else none
    else if strEndsWith str "Z" then
      if rfc3339Ok cs then some (.zonedDT str "UTC") else none
    else if offsetSuffixOk cs then
      if rfc3339Ok cs then some (.zonedDT str "UTC") else none
    else if plainDTOk cs then some (.zonedDT str tz)
    else none

/-- From registerStandardLiterals: the fixed priority order, most specific
first.  validZone models the host timezone database behind time.LoadLocation
and today models time.Now in the configured zone; no claim-relevant input
reaches either. -/
def standardLiteralHandlers (validZone : String → Bool)
    (today : Int × Int × Int) : List (String → Option Value) :=
  [toBoolLit, toFloatLit, toZonedDateTimeLit validZone "UTC",
   toLiteralDateLit today, toTimeLit, toIntLit]

/-! ## Interpreter construction -/

/-- From NewInterpreter before module imports: empty stack, a fresh app
module with an empty name at the bottom of the module stack, and the given
literal handlers. -/
def mkInterp (lits : List (String → Option Value)) : Interp :=
  { stack := []
    heap := [newModule ""]
    appModuleId := 0
    moduleStack := [0]
    registeredMods := []
    tokenizerStack := []
    previousToken := none
    isCompiling := false
    isMemoDefinition := false
    curDefinition := none
    memos := []
    literalHandlers := lits
    timezone := "UTC" }

/-- The math module of the repository restricted to its plus word, which
AddModuleWord registers as exportable under both of its names; the remaining
math words are independent of every claim and are not modelled. -/
def mathModuleData : ModuleData :=
  { name := "math"
    words := [.moduleWord "+" [] .mathPlus, .moduleWord "ADD" [] .mathPlus]
    exportable := ["+", "ADD"]
    vars := []
    modules := []
    modulePrefixes := []
    forthicCode := "" }

/-- NewInterpreter with the standard literal handlers and no imported
modules. -/
def newInterpreter (validZone : String → Bool) (today : Int × Int × Int) :
    Interp :=
  mkInterp (standardLiteralHandlers validZone today)

/-- NewInterpreter(mathModule): the constructor imports the provided module
unprefixed (Interpreter.ImportModule = RegisterModule + app-module import). -/
def newInterpreterWithMath (validZone : String → Bool)
    (today : Int × Int × Int) : Interp :=
  let s := newInterpreter validZone today
  let mathId := s.heap.length
  let s := { s with heap := s.heap ++ [mathModuleData] }
  importModuleInterp s mathId ""

/-! ## Run-result extractors used in theorem statements -/

def runStack (fuel : Nat) (code : String) (s : Interp) : Option (List Value) :=
  match run fuel code s with
  | .ok _ s' => some s'.stack
  | _ => none

def runErr (fuel : Nat) (code : String) (s : Interp) : Option FErr :=
  match run fuel code s with
  | .err e _ => some e
  | _ => none

def runPanic (fuel : Nat) (code : String) (s : Interp) : Option FErr :=
  match run fuel code s with
  | .panic e => some e
  | _ => none

/-- First token of an input under a fresh non-streaming tokenizer. -/
def firstToken (code : String) : Option Token :=
  match nextToken (newTokenizer code none false) with
  | .tok tk _ => some tk
  | _ => none

/-! ## Concrete instantiation of the host-environment parameters -/

/-- A timezone database that knows no zones; no claim-relevant input reaches
it. -/
def noZone : String → Bool := fun _ => false

/-- An arbitrary fixed value for today; no claim-relevant input reaches it. -/
def sampleToday : Int × Int × Int := (2025, 1, 1)

/-! ## Helper lemmas -/

theorem getD_append_last {α : Type} (l : List α) (m d : α) :
    (l ++ [m]).getD l.length d = m := by
  simp [List.getD_append_right]

theorem getD_append_left {α : Type} (l l' : List α) (i : Nat) (d : α)
    (h : i < l.length) : (l ++ l').getD i d = l.getD i d := by
  simp [List.getD, List.getElem?_append_left h]

theorem getD_set_self {α : Type} (l : List α) (i : Nat) (a d : α)
    (h : i < l.length) : (l.set i a).getD i d = a := by
  simp [List.getD, List.getElem?_set_self, h]

theorem getD_set_ne {α : Type} (l : List α) (i j : Nat) (a d : α)
    (h : i ≠ j) : (l.set i a).getD j d = l.getD j d := by
  simp [List.getD, List.getElem?_set_ne, h]

theorem getLast?_cons_ne {α : Type} (a : α) (l : List α) (h : l ≠ []) :
    (a :: l).getLast? = l.getLast? := by
  cases l with
  | nil => exact absurd rfl h
  | cons b t => simp [List.getLast?]

/-- Unfolding equations of executeAux at positive fuel. -/
theorem executeAux_push (fuel : Nat) (nm : String) (v : Value) (s : Interp) :
    executeAux (fuel + 1) (.one (.pushValue nm v)) s = .ok () (stackPush s v) := rfl

theorem executeAux_endArray (fuel : Nat) (s : Interp) :
    executeAux (fuel + 1) (.one .endArrayWord) s = endArrayExec s := rfl

theorem executeAux_body_nil (fuel : Nat) (hs : List (FErr → Option FErr))
    (s : Interp) : executeAux (fuel + 1) (.body [] hs) s = .ok () s := rfl

theorem executeAux_body_cons (fuel : Nat) (w : Wrd) (rest : List Wrd)
    (hs : List (FErr → Option FErr)) (s : Interp) :
    executeAux (fuel + 1) (.body (w :: rest) hs) s =
      match executeAux fuel (.one w) s with
      | .ok _ s' => executeAux fuel (.body rest hs) s'
      | .err e s' =>
        match tryErrorHandlers hs e with
        | none => executeAux fuel (.body rest hs) s'
        | some _ => .err e s'
      | r => r := rfl

/-! ## C8 — greedy triple-quote closure -/

/-- Counterexample for C8: the eight-character input of three quotes, the
letter a and four quotes lexes to a single STRING token whose content is the
2-character string of a and one quote — not the 4-character string the claim
names. -/
theorem greedy_triple_quote_counterexample :
    tokenizeAll "\"\"\"a\"\"\"\"" = some [(.string, "a\""), (.eos, "")] ∧
      ("a\"" : String) ≠ "a\"\"\"" := by
  constructor
  · rfl
  · decide

/-- C8 (amended): the greedy rule consumes a closing quote run that is
followed by another delimiter, so the eight-character input (three quotes, a,
four quotes) lexes to the single 2-character string of a and one quote, and
the content claimed in the spec — a followed by three quotes — arises from
the ten-character input with six closing quotes, where the content ends at
the final run of three delimiters, the only one not followed by another
delimiter. -/
theorem greedy_triple_quote_closure :
    tokenizeAll "\"\"\"a\"\"\"\"" = some [(.string, "a\""), (.eos, "")] ∧
      tokenizeAll "\"\"\"a\"\"\"\"\"\"" =
        some [(.string, "a\"\"\""), (.eos, "")] := by
  exact ⟨rfl, rfl⟩

/-! ## C7 — missing terminator at end of stream -/

set_option maxHeartbeats 4000000 in
/-- C7: when the end-of-stream token arrives while a definition is being
compiled, the dispatcher returns a missing-semicolon error located at the
previous token; in particular running the two-token input of a definition
opener with name W and no terminator yields that error at the location of W
(the START_DEF token carrying W, as the third conjunct pins down). -/
theorem eos_while_compiling_missing_semicolon :
    (∀ (fuel : Nat) (s : Interp) (tok : Token) (pt : Token),
      tok.kind = .eos → s.isCompiling = true → s.previousToken = some pt →
      handleToken fuel tok s = .err ⟨.missingSemicolon, some pt.location⟩ s) ∧
    (∀ (validZone : String → Bool) (today : Int × Int × Int),
      runErr 100 ": W" (newInterpreter validZone today) =
        some ⟨.missingSemicolon, some ⟨"", 1, 3, 2, 3⟩⟩) ∧
    firstToken ": W" = some ⟨.startDef, "W", ⟨"", 1, 3, 2, 3⟩⟩ := by
  refine ⟨?_, fun _ _ => rfl, rfl⟩
  intro fuel s tok pt hk hc hp
  simp [handleToken, hk, hc, hp]

/-- Witness for C7 at a concrete compiling state and end-of-stream token. -/
theorem eos_while_compiling_missing_semicolon_witness :
    handleToken 3 ⟨.eos, "", ⟨"", 1, 9, 8, 8⟩⟩
        { newInterpreter noZone sampleToday with
          isCompiling := true
          previousToken := some ⟨.word, "W", ⟨"", 1, 5, 4, 5⟩⟩ } =
      .err ⟨.missingSemicolon, some ⟨"", 1, 5, 4, 5⟩⟩
        { newInterpreter noZone sampleToday with
          isCompiling := true
          previousToken := some ⟨.word, "W", ⟨"", 1, 5, 4, 5⟩⟩ } :=
  eos_while_compiling_missing_semicolon.1 3 _ _ _ rfl rfl rfl

/-! ## C10 — stack underflow is a panic, not an error return -/

set_option maxHeartbeats 4000000 in
/-- C10: popping or peeking an empty operand stack panics with the
StackUnderflow condition (it is not returned as an error value); the run
entry point propagates a panic of its loop unchanged, so an underflow — such
as executing the end-array word with no sentinel on an empty stack — escapes
Run as a panic and is never reported through the error return (the final
conjunct checks the error return is empty on exactly that input). -/
theorem stack_underflow_panics :
    (∀ s : Interp, s.stack = [] →
      stackPop s = .panic ⟨.stackUnderflow, tokenizerLoc s⟩ ∧
      stackPeek s = .panic ⟨.stackUnderflow, tokenizerLoc s⟩) ∧
    (∀ (fuel : Nat) (code : String) (s : Interp) (e : FErr),
      runLoop fuel
          { s with tokenizerStack := newTokenizer code none false :: s.tokenizerStack } =
        .panic e →
      run fuel code s = .panic e) ∧
    (∀ (validZone : String → Bool) (today : Int × Int × Int),
      runPanic 100 "]" (newInterpreter validZone today) =
        some ⟨.stackUnderflow, some ⟨"", 1, 1, 0, 1⟩⟩ ∧
      runErr 100 "]" (newInterpreter validZone today) = none) := by
  refine ⟨?_, ?_, fun _ _ => ⟨rfl, rfl⟩⟩
  · intro s h
    constructor <;> simp [stackPop, stackPeek, h]
  · intro fuel code s e h
    simp [run, h]

/-- Witness for C10 at a concrete empty-stack state and a concrete panicking
run. -/
theorem stack_underflow_panics_witness :
    stackPop (newInterpreter noZone sampleToday) =
      .panic ⟨.stackUnderflow, tokenizerLoc (newInterpreter noZone sampleToday)⟩ ∧
    run 100 "]" (newInterpreter noZone sampleToday) =
      .panic ⟨.stackUnderflow, some ⟨"", 1, 1, 0, 1⟩⟩ :=
  ⟨(stack_underflow_panics.1 _ rfl).1,
   stack_underflow_panics.2.1 100 "]" _ _ (by rfl)⟩

/-! ## C1 — END_ARRAY collects to the sentinel -/

theorem collectToSentinel_append (seg below : List Value) (sent : Value)
    (hsent : isStartArrayV sent = true)
    (hseg : seg.all (fun v => !isStartArrayV v) = true) :
    collectToSentinel (seg ++ sent :: below) = some (seg, below) := by
  induction seg with
  | nil => simp [collectToSentinel, hsent]
  | cons v rest ih =>
    simp only [List.all_cons, Bool.and_eq_true, Bool.not_eq_true'] at hseg
    simp [collectToSentinel, hseg.1, ih hseg.2]

/-- Executing a sequence of pushes inside a body consumes one fuel per word
and stacks the values in push order (last pushed on top). -/
theorem executeAux_pushSeq (nm : String) (vs : List Value) (rest : List Wrd)
    (hs : List (FErr → Option FErr)) :
    ∀ (fuel : Nat) (s : Interp), vs.length + 1 ≤ fuel →
    executeAux fuel (.body (vs.map (fun v => .pushValue nm v) ++ rest) hs) s =
      executeAux (fuel - vs.length) (.body rest hs)
        { s with stack := vs.reverse ++ s.stack } := by
  induction vs with
  | nil =>
    intro fuel s h
    simp
  | cons v tail ih =>
    intro fuel s h
    simp only [List.length_cons] at h
    obtain ⟨g, rfl⟩ : ∃ g, fuel = g + 1 + 1 := ⟨fuel - 2, by omega⟩
    rw [List.map_cons, List.cons_append, executeAux_body_cons,
      executeAux_push]
    show executeAux (g + 1)
        (.body (tail.map (fun v => Wrd.pushValue nm v) ++ rest) hs)
        (stackPush s v) = _
    rw [ih (g + 1) (stackPush s v) (by omega)]
    have harith : g + 1 + 1 - (v :: tail).length = g + 1 - tail.length := by
      simp only [List.length_cons]; omega
    rw [harith]
    simp [stackPush, List.append_assoc]

set_option maxHeartbeats 4000000 in
/-- C1: executing the end-array word pops values down to the sentinel pushed
by the matching start-array token, discards the sentinel, and pushes one
sequence holding the popped values in their original push order (first
conjunct); consequently a bracketed literal of n sentinel-free values run
from an empty stack leaves exactly the one sequence of those n values in
order (second conjunct, at the word-sequence level the tokens produce), and
the concrete program with the two integer literals leaves exactly one
two-element sequence (third conjunct, end to end through tokenizer and
interpreter). -/
theorem end_array_round_trip :
    (∀ (fuel : Nat) (s : Interp) (seg below : List Value) (sent : Value),
      s.stack = seg ++ sent :: below →
      isStartArrayV sent = true →
      seg.all (fun v => !isStartArrayV v) = true →
      execute (fuel + 1) .endArrayWord s =
        .ok () { s with stack := .list seg.reverse :: below }) ∧
    (∀ (vs : List Value) (fuel : Nat) (s : Interp) (tok : Token),
      tok.kind = .startArray →
      s.stack = [] →
      vs.all (fun v => !isStartArrayV v) = true →
      vs.length + 3 ≤ fuel →
      executeBody fuel
        (.pushValue "<start_array_token>" (.token tok) ::
          (vs.map (fun v => .pushValue "<literal>" v) ++ [.endArrayWord])) [] s =
        .ok () { s with stack := [.list vs] }) ∧
    (∀ (validZone : String → Bool) (today : Int × Int × Int),
      runStack 100 "[ 1 2 ]" (newInterpreter validZone today) =
        some [.list [.int 1, .int 2]]) := by
  refine ⟨?_, ?_, fun _ _ => rfl⟩
  · intro fuel s seg below sent hstack hsent hseg
    rw [execute, executeAux_endArray]
    simp [endArrayExec, hstack, collectToSentinel_append seg below sent hsent hseg]
  · intro vs fuel s tok htok hstack hvs hfuel
    obtain ⟨h, rfl⟩ : ∃ h, fuel = h + 1 + 1 := ⟨fuel - 2, by omega⟩
    rw [executeBody, executeAux_body_cons, executeAux_push]
    simp only []
    rw [executeAux_pushSeq "<literal>" vs [.endArrayWord] [] (h + 1)
      (stackPush s (.token tok)) (by omega)]
    obtain ⟨m, hm⟩ : ∃ m, h + 1 - vs.length = m + 1 + 1 :=
      ⟨h - 1 - vs.length, by omega⟩
    rw [hm, executeAux_body_cons, executeAux_endArray]
    have hsent : isStartArrayV (.token tok) = true := by
      simp [isStartArrayV, htok]
    have hrev : vs.reverse.all (fun v => !isStartArrayV v) = true := by
      rw [List.all_reverse]; exact hvs
    have hcollect :
        collectToSentinel (vs.reverse ++ .token tok :: []) =
          some (vs.reverse, []) :=
      collectToSentinel_append vs.reverse [] (.token tok) hsent hrev
    simp [endArrayExec, stackPush, hstack, hcollect, executeAux_body_nil]

/-- A start-array token used by concrete witnesses. -/
def c1Tok : Token := ⟨.startArray, "[", ⟨"", 1, 1, 0, 1⟩⟩

/-- Witness for C1: the end-array word and the full word sequence of a
two-element literal, run at concrete inputs. -/
theorem end_array_round_trip_witness :
    execute 5 .endArrayWord
        { newInterpreter noZone sampleToday with
          stack := [.int 2, .int 1, .token c1Tok] } =
      .ok () { newInterpreter noZone sampleToday with
               stack := [.list [.int 1, .int 2]] } ∧
    executeBody 10
        (.pushValue "<start_array_token>" (.token c1Tok) ::
          ([Value.int 1, Value.int 2].map (fun v => .pushValue "<literal>" v) ++
            [.endArrayWord])) []
        (newInterpreter noZone sampleToday) =
      .ok () { newInterpreter noZone sampleToday with
               stack := [.list [.int 1, .int 2]] } :=
  ⟨end_array_round_trip.1 4 _ [.int 2, .int 1] [] (.token c1Tok) rfl rfl rfl,
   end_array_round_trip.2.1 [.int 1, .int 2] 10 _ c1Tok rfl rfl rfl (by decide)⟩

/-! ## C3 — name resolution order -/

/-- C3: resolution of a name token.  Within a module, the dictionary is
searched newest entry first — appending a word of a given name shadows every
older one (first conjunct) — and only when no dictionary word matches is a
variable consulted, in which case the resolved word pushes the Variable cell
itself, not its contents (second and third conjuncts).  The module stack is
searched from top to bottom (fourth and fifth conjuncts).  When no module
resolves the name the literal handlers are consulted, and when those also
fail an unknown-word error results (last two conjuncts). -/
theorem find_word_resolution :
    (∀ (ws : List Wrd) (w : Wrd) (nm : String), wordName w = nm →
      findDictionaryWord (ws ++ [w]) nm = some w) ∧
    (∀ (m : ModuleData) (nm : String) (w : Wrd),
      findDictionaryWord m.words nm = some w → moduleFindWord m nm = some w) ∧
    (∀ (m : ModuleData) (nm : String) (v : Value),
      findDictionaryWord m.words nm = none → m.vars.lookup nm = some v →
      moduleFindWord m nm = some (.pushValue nm (.varCell nm v))) ∧
    (∀ (s : Interp) (nm : String) (id : Nat) (rest : List Nat) (w : Wrd),
      moduleFindWord (getMod s id) nm = some w →
      findWordInStack s nm (id :: rest) = some w) ∧
    (∀ (s : Interp) (nm : String) (id : Nat) (rest : List Nat),
      moduleFindWord (getMod s id) nm = none →
      findWordInStack s nm (id :: rest) = findWordInStack s nm rest) ∧
    (∀ (s : Interp) (nm : String) (w : Wrd),
      findWordInStack s nm s.moduleStack = none →
      findLiteralWord s.literalHandlers nm = some w → findWord s nm = .ok w) ∧
    (∀ (s : Interp) (nm : String),
      findWordInStack s nm s.moduleStack = none →
      findLiteralWord s.literalHandlers nm = none →
      findWord s nm = .error ⟨.unknownWord nm, none⟩) := by
  refine ⟨?_, ?_, ?_, ?_, ?_, ?_, ?_⟩
  · intro ws w nm h
    simp [findDictionaryWord, List.reverse_append, List.find?, h]
  · intro m nm w h
    simp [moduleFindWord, h]
  · intro m nm v h1 h2
    simp [moduleFindWord, findVariable, h1, h2]
  · intro s nm id rest w h
    simp [findWordInStack, h]
  · intro s nm id rest h
    simp [findWordInStack, h]
  · intro s nm w h1 h2
    simp [findWord, h1, h2]
  · intro s nm h1 h2
    simp [findWord, h1, h2]

/-- Words and states used by the C3 witness. -/
def c3Old : Wrd := .pushValue "W" (.int 1)

def c3New : Wrd := .pushValue "W" (.int 2)

def c3VarMod : ModuleData := { newModule "m" with vars := [("V", .int 7)] }

def c3Stack : Interp :=
  { newInterpreter noZone sampleToday with
    heap := [{ newModule "" with words := [c3New] }] }

set_option maxHeartbeats 1000000 in
/-- Witness for C3: shadowing, variable lookup, stack search, the literal
fallback and the unknown-word error, each at a concrete input. -/
theorem find_word_resolution_witness :
    findDictionaryWord ([c3Old] ++ [c3New]) "W" = some c3New ∧
    moduleFindWord { newModule "" with words := [c3New] } "W" = some c3New ∧
    moduleFindWord c3VarMod "V" =
      some (.pushValue "V" (.varCell "V" (.int 7))) ∧
    findWordInStack c3Stack "W" (0 :: []) = some c3New ∧
    findWordInStack c3Stack "Q" (0 :: []) = findWordInStack c3Stack "Q" [] ∧
    findWord (newInterpreter noZone sampleToday) "42" =
      .ok (.pushValue "42" (.int 42)) ∧
    findWord (newInterpreter noZone sampleToday) "NOPE" =
      .error ⟨.unknownWord "NOPE", none⟩ :=
  ⟨find_word_resolution.1 [c3Old] c3New "W" rfl,
   find_word_resolution.2.1 _ "W" c3New rfl,
   find_word_resolution.2.2.1 c3VarMod "V" (.int 7) rfl rfl,
   find_word_resolution.2.2.2.1 c3Stack "W" 0 [] c3New rfl,
   find_word_resolution.2.2.2.2.1 c3Stack "Q" 0 [] rfl,
   find_word_resolution.2.2.2.2.2.1 _ "42" _ rfl rfl,
   find_word_resolution.2.2.2.2.2.2 _ "NOPE" rfl rfl⟩
/-! ## C6 — error handler routing -/

/-- C6: when a word with registered error handlers fails, an intentional-stop
error bypasses every handler and propagates (first conjunct); otherwise the
handlers run in registration order — the first to return no error swallows
the fault (second conjunct), a failing handler just passes to the next
(third conjunct), and when every handler fails the original error, not any
handler's own, is returned (fourth conjunct).  Inside a definition body a
swallowed fault lets execution continue with the remaining words as if the
word had succeeded (fifth conjunct) while an unhandled fault aborts with the
original error (sixth conjunct); a native ModuleWord routes its handler's
error the same way (last conjunct). -/
theorem error_handler_routing :
    (∀ (hs : List (FErr → Option FErr)) (msg : String)
        (loc : Option CodeLocation),
      tryErrorHandlers hs ⟨.intentionalStop msg, loc⟩ =
        some ⟨.intentionalStop msg, loc⟩) ∧
    (∀ (h : FErr → Option FErr) (hs : List (FErr → Option FErr)) (e : FErr),
      isIntentionalStop e = false → h e = none →
      tryErrorHandlers (h :: hs) e = none) ∧
    (∀ (h : FErr → Option FErr) (hs : List (FErr → Option FErr)) (e e' : FErr),
      isIntentionalStop e = false → h e = some e' →
      tryErrorHandlers (h :: hs) e = tryErrorHandlers hs e) ∧
    (∀ (hs : List (FErr → Option FErr)) (e : FErr),
      isIntentionalStop e = false → (∀ h ∈ hs, h e ≠ none) →
      tryErrorHandlers hs e = some e) ∧
    (∀ (fuel : Nat) (w : Wrd) (rest : List Wrd)
        (hs : List (FErr → Option FErr)) (s s' : Interp) (e : FErr),
      executeAux fuel (.one w) s = .err e s' →
      tryErrorHandlers hs e = none →
      executeAux (fuel + 1) (.body (w :: rest) hs) s =
        executeAux fuel (.body rest hs) s') ∧
    (∀ (fuel : Nat) (w : Wrd) (rest : List Wrd)
        (hs : List (FErr → Option FErr)) (s s' : Interp) (e e' : FErr),
      executeAux fuel (.one w) s = .err e s' →
      tryErrorHandlers hs e = some e' →
      executeAux (fuel + 1) (.body (w :: rest) hs) s = .err e s') ∧
    (∀ (fuel : Nat) (nm : String) (hs : List (FErr → Option FErr))
        (b : NativeBehavior) (s s' : Interp) (e : FErr),
      runNative b s = .err e s' →
      execute (fuel + 1) (.moduleWord nm hs b) s =
        (match tryErrorHandlers hs e with
         | none => .ok () s'
         | some _ => .err e s')) := by
  refine ⟨?_, ?_, ?_, ?_, ?_, ?_, ?_⟩
  · intro hs msg loc
    simp [tryErrorHandlers, isIntentionalStop]
  · intro h hs e he hh
    simp [tryErrorHandlers, he, runHandlers, hh]
  · intro h hs e e' he hh
    simp [tryErrorHandlers, he, runHandlers, hh]
  · intro hs e he hall
    induction hs with
    | nil => simp [tryErrorHandlers, he, runHandlers]
    | cons h t ih =>
      have h1 : h e ≠ none := hall h (List.mem_cons_self h t)
      obtain ⟨x, hx⟩ := Option.ne_none_iff_exists'.mp h1
      have ht := ih (fun g hg => hall g (List.mem_cons_of_mem h hg))
      simp only [tryErrorHandlers, he, if_neg Bool.false_ne_true,
        runHandlers, hx] at ht ⊢
      simpa [runHandlers, hx] using ht
  · intro fuel w rest hs s s' e hexec htry
    rw [executeAux_body_cons, hexec]
    simp [htry]
  · intro fuel w rest hs s s' e e' hexec htry
    rw [executeAux_body_cons, hexec]
    simp [htry]
  · intro fuel nm hs b s s' e hrun
    show (match runNative b s with
      | .err e s' =>
        match tryErrorHandlers hs e with
        | none => Res.ok () s'
        | some _ => .err e s'
      | r => r) = _
    rw [hrun]

/-- Objects of the C6 witness: a failing native word of the shape the
word-error-handler tests install, a handler that itself fails, and a handler
that succeeds. -/
def c6Err : FErr := ⟨.forthicMsg "Test error", none⟩

def c6Failing : Wrd := .moduleWord "FAILING-WORD" [] (.failWith c6Err)

def c6H1 : FErr → Option FErr := fun _ => some ⟨.forthicMsg "Handler 1 failed", none⟩

def c6H2 : FErr → Option FErr := fun _ => none

def c6S : Interp := newInterpreter noZone sampleToday

/-- Witness for C6 at concrete handlers, error values and a concrete failing
word inside a definition body. -/
theorem error_handler_routing_witness :
    tryErrorHandlers [c6H1] ⟨.intentionalStop "Intentional stop", none⟩ =
      some ⟨.intentionalStop "Intentional stop", none⟩ ∧
    tryErrorHandlers [c6H2] c6Err = none ∧
    tryErrorHandlers [c6H1, c6H2] c6Err = tryErrorHandlers [c6H2] c6Err ∧
    tryErrorHandlers [c6H1] c6Err = some c6Err ∧
    executeAux 2 (.body [c6Failing] [c6H2]) c6S =
      executeAux 1 (.body [] [c6H2]) c6S ∧
    executeAux 2 (.body [c6Failing] [c6H1]) c6S = .err c6Err c6S ∧
    execute 1 (.moduleWord "FAILING-WORD" [c6H2] (.failWith c6Err)) c6S =
      .ok () c6S :=
  ⟨error_handler_routing.1 [c6H1] "Intentional stop" none,
   error_handler_routing.2.1 c6H2 [] c6Err rfl rfl,
   error_handler_routing.2.2.1 c6H1 [c6H2] c6Err _ rfl rfl,
   error_handler_routing.2.2.2.1 [c6H1] c6Err rfl
     (by intro h hm; simp at hm; subst hm; simp [c6H1]),
   error_handler_routing.2.2.2.2.1 1 c6Failing [] [c6H2] c6S c6S c6Err rfl rfl,
   error_handler_routing.2.2.2.2.2.1 1 c6Failing [] [c6H1] c6S c6S c6Err c6Err
     rfl rfl,
   (error_handler_routing.2.2.2.2.2.2 0 "FAILING-WORD" [c6H2] (.failWith c6Err)
     c6S c6S c6Err rfl).trans rfl⟩
/-! ## C2 — memoized words -/

theorem getMemo_setMemo_self (s : Interp) (id : Nat) (m : MemoData)
    (h : id < s.memos.length) : getMemo (setMemo s id m) id = m :=
  getD_set_self s.memos id m _ h

theorem getMod_setMod_self (s : Interp) (id : Nat) (m : ModuleData)
    (h : id < s.heap.length) : getMod (setMod s id m) id = m :=
  getD_set_self s.heap id m _ h

theorem executeAux_refresh (fuel : Nat) (id : Nat) (s : Interp) :
    executeAux (fuel + 1) (.refresh id) s =
      (match executeAux fuel (.one (getMemo s id).word) s with
       | .ok _ s' =>
         match stackPop s' with
         | .ok v s'' =>
           .ok () (setMemo s'' id ⟨(getMemo s'' id).word, true, v⟩)
         | .err e s'' => .err e s''
         | .panic e => .panic e
         | .dry => .dry
       | r => r) := rfl

theorem executeAux_memoWord (fuel : Nat) (id : Nat) (nm : String)
    (s : Interp) :
    executeAux (fuel + 1) (.one (.memoWord id nm)) s =
      (if (getMemo s id).hasValue then .ok () (stackPush s (getMemo s id).value)
       else
         match executeAux fuel (.refresh id) s with
         | .ok _ s' => .ok () (stackPush s' (getMemo s' id).value)
         | r => r) := rfl

theorem executeAux_memoBang (fuel : Nat) (id : Nat) (nm : String)
    (s : Interp) :
    executeAux (fuel + 1) (.one (.memoBangWord id nm)) s =
      executeAux fuel (.refresh id) s := rfl

/-- A successful refresh runs the cell's word, captures the top of the
resulting stack into the cell and marks it filled. -/
theorem memoRefresh_ok (fuel : Nat) (s s1 : Interp) (id : Nat) (v : Value)
    (rest : List Value)
    (h1 : executeAux fuel (.one (getMemo s id).word) s = .ok () s1)
    (h2 : s1.stack = v :: rest) :
    executeAux (fuel + 1) (.refresh id) s =
      .ok () (setMemo { s1 with stack := rest } id
        ⟨(getMemo s1 id).word, true, v⟩) := by
  rw [executeAux_refresh, h1]
  have hpop : stackPop s1 = .ok v { s1 with stack := rest } := by
    simp [stackPop, h2]
  show (match stackPop s1 with
    | .ok v s'' => Res.ok () (setMemo s'' id ⟨(getMemo s'' id).word, true, v⟩)
    | .err e s'' => .err e s''
    | .panic e => .panic e
    | .dry => .dry) = _
  rw [hpop]
  rfl

set_option maxHeartbeats 4000000 in
/-- C2: a memoized word with a filled cache pushes the cached value without
running the body (first conjunct).  With an empty cache, executing the memo
word runs the underlying body, captures the value the body left on top of
the stack as the cache, and pushes it (second conjunct).  Executing the bang
variant re-runs the body and repopulates the cache but pushes nothing — the
final stack is the body's result stack minus the captured top (third
conjunct).  Installing a memo definition adds the three words NAME, NAME-bang
and NAME-bang-at to the module (fourth conjunct), and the concrete program
of the claim run on an empty stack leaves exactly the stack of two fives
(fifth conjunct; the plus word of the math module produces float values). -/
theorem memo_word_semantics :
    (∀ (fuel : Nat) (s : Interp) (id : Nat) (nm : String),
      (getMemo s id).hasValue = true →
      execute (fuel + 1) (.memoWord id nm) s =
        .ok () (stackPush s (getMemo s id).value)) ∧
    (∀ (fuel : Nat) (s s1 : Interp) (id : Nat) (nm : String) (v : Value)
        (rest : List Value),
      (getMemo s id).hasValue = false →
      executeAux fuel (.one (getMemo s id).word) s = .ok () s1 →
      s1.stack = v :: rest →
      id < s1.memos.length →
      execute (fuel + 2) (.memoWord id nm) s =
        .ok () (stackPush
          (setMemo { s1 with stack := rest } id ⟨(getMemo s1 id).word, true, v⟩)
          v)) ∧
    (∀ (fuel : Nat) (s s1 : Interp) (id : Nat) (nm : String) (v : Value)
        (rest : List Value),
      executeAux fuel (.one (getMemo s id).word) s = .ok () s1 →
      s1.stack = v :: rest →
      id < s1.memos.length →
      execute (fuel + 2) (.memoBangWord id nm) s =
        .ok () (setMemo { s1 with stack := rest } id
          ⟨(getMemo s1 id).word, true, v⟩) ∧
      (getMemo (setMemo { s1 with stack := rest } id
          ⟨(getMemo s1 id).word, true, v⟩) id).hasValue = true ∧
      (getMemo (setMemo { s1 with stack := rest } id
          ⟨(getMemo s1 id).word, true, v⟩) id).value = v ∧
      (setMemo { s1 with stack := rest } id
          ⟨(getMemo s1 id).word, true, v⟩).stack = rest) ∧
    (∀ (s : Interp) (modId : Nat) (d : DefData),
      modId < s.heap.length →
      (getMod (addMemoWords s modId d) modId).words =
        (getMod s modId).words ++
          [.memoWord s.memos.length d.name,
           .memoBangWord s.memos.length (d.name ++ "!"),
           .memoBangAtWord s.memos.length (d.name ++ "!@")]) ∧
    (∀ (validZone : String → Bool) (today : Int × Int × Int),
      runStack 100 "@: X 2 3 + ; X X X!" (newInterpreterWithMath validZone today) =
        some [.float ⟨5, 1⟩, .float ⟨5, 1⟩]) := by
  refine ⟨?_, ?_, ?_, ?_, fun _ _ => rfl⟩
  · intro fuel s id nm h
    rw [execute, executeAux_memoWord, if_pos h]
  · intro fuel s s1 id nm v rest h0 h1 h2 h3
    rw [execute, executeAux_memoWord, if_neg (by simp [h0]),
      memoRefresh_ok fuel s s1 id v rest h1 h2]
    have hget : getMemo (setMemo { s1 with stack := rest } id
        ⟨(getMemo s1 id).word, true, v⟩) id =
        ⟨(getMemo s1 id).word, true, v⟩ :=
      getMemo_setMemo_self _ _ _ h3
    show Res.ok () (stackPush
        (setMemo { s1 with stack := rest } id ⟨(getMemo s1 id).word, true, v⟩)
        ((getMemo (setMemo { s1 with stack := rest } id
          ⟨(getMemo s1 id).word, true, v⟩) id)).value) = _
    rw [hget]
  · intro fuel s s1 id nm v rest h1 h2 h3
    have hget : getMemo (setMemo { s1 with stack := rest } id
        ⟨(getMemo s1 id).word, true, v⟩) id =
        ⟨(getMemo s1 id).word, true, v⟩ :=
      getMemo_setMemo_self _ _ _ h3
    refine ⟨?_, by rw [hget], by rw [hget], rfl⟩
    rw [execute, executeAux_memoBang, memoRefresh_ok fuel s s1 id v rest h1 h2]
  · intro s modId d h
    simp only [addMemoWords]
    rw [getMod_setMod_self
      { s with memos := s.memos ++ [⟨.definition d.name d.words [], false, .null⟩] }
      modId _ h]
    rfl

/-- Memo heap states of the C2 witness: an unfilled cell whose body pushes 9,
and a filled cell caching 5. -/
def c2Empty : Interp :=
  { newInterpreter noZone sampleToday with
    memos := [⟨.pushValue "X" (.int 9), false, .null⟩] }

def c2Full : Interp :=
  { newInterpreter noZone sampleToday with
    memos := [⟨.pushValue "X" (.int 9), true, .int 5⟩] }

set_option maxHeartbeats 1000000 in
/-- Witness for C2 at the two concrete memo states and a concrete
installation. -/
theorem memo_word_semantics_witness :
    execute 1 (.memoWord 0 "X") c2Full = .ok () (stackPush c2Full (.int 5)) ∧
    execute 3 (.memoWord 0 "X") c2Empty =
      .ok () (stackPush
        (setMemo { stackPush c2Empty (.int 9) with stack := [] } 0
          ⟨.pushValue "X" (.int 9), true, .int 9⟩) (.int 9)) ∧
    execute 3 (.memoBangWord 0 "X") c2Empty =
      .ok () (setMemo { stackPush c2Empty (.int 9) with stack := [] } 0
        ⟨.pushValue "X" (.int 9), true, .int 9⟩) ∧
    (getMod (addMemoWords c2Empty 0 ⟨"X", [.pushValue "2" (.int 2)]⟩) 0).words =
      [.memoWord 1 "X", .memoBangWord 1 "X!", .memoBangAtWord 1 "X!@"] :=
  ⟨memo_word_semantics.1 0 c2Full 0 "X" rfl,
   memo_word_semantics.2.1 1 c2Empty (stackPush c2Empty (.int 9)) 0 "X"
     (.int 9) [] rfl rfl rfl (by decide),
   (memo_word_semantics.2.2.1 1 c2Empty (stackPush c2Empty (.int 9)) 0 "X"
     (.int 9) [] rfl rfl (by decide)).1,
   memo_word_semantics.2.2.2.1 c2Empty 0 ⟨"X", [.pushValue "2" (.int 2)]⟩
     (by decide)⟩
/-! ## C9 — immediate words during compilation -/

/-- States and tokens of the C9 counterexample: an interpreter that is
compiling a definition named F with an empty body so far. -/
def c9State : Interp :=
  { newInterpreter noZone sampleToday with
    isCompiling := true
    curDefinition := some ⟨"F", []⟩ }

def c9ArrTok : Token := ⟨.startArray, "[", ⟨"", 1, 5, 4, 5⟩⟩

def c9EndTok : Token := ⟨.endArray, "]", ⟨"", 1, 7, 6, 7⟩⟩

def c9Appended : Interp :=
  { c9State with
    curDefinition :=
      some ⟨"F", [.pushValue "<start_array_token>" (.token c9ArrTok)]⟩ }

/-- Counterexample for C9: while compiling, a START_ARRAY token is appended
to the current definition but NOT executed — the operand stack stays empty,
whereas executing the appended word now (as the claim asserts) would push the
sentinel token, a visibly different stack.  Likewise the END_ARRAY token is
only appended: executing its word now would panic with a stack underflow on
the empty stack, yet the handler returns successfully. -/
theorem array_tokens_immediate_counterexample :
    handleToken 5 c9ArrTok c9State = .ok () c9Appended ∧
    c9Appended.stack = [] ∧
    execute 5 (.pushValue "<start_array_token>" (.token c9ArrTok)) c9Appended =
      .ok () (stackPush c9Appended (.token c9ArrTok)) ∧
    (stackPush c9Appended (.token c9ArrTok)).stack ≠ c9Appended.stack ∧
    handleToken 5 c9EndTok c9State =
      .ok () { c9State with curDefinition := some ⟨"F", [.endArrayWord]⟩ } ∧
    execute 5 .endArrayWord c9State = .panic ⟨.stackUnderflow, none⟩ := by
  refine ⟨rfl, rfl, rfl, ?_, rfl, rfl⟩
  simp [stackPush]

/-- The state after appending a word to the definition under compilation. -/
def appendedDef (s : Interp) (d : DefData) (w : Wrd) : Interp :=
  { s with curDefinition := some ⟨d.name, d.words ++ [w]⟩ }

set_option maxHeartbeats 1000000 in
/-- C9 (amended): while the interpreter is compiling a definition, the
StartModule and EndModule tokens are immediate — each appends its word to the
current definition AND executes it now (first two conjuncts) — whereas the
START_ARRAY and END_ARRAY tokens are handled like every other non-immediate
word: their words are only appended to the definition body and are not
executed during compilation (remaining conjuncts). -/
theorem compile_mode_immediate_words :
    (∀ (fuel : Nat) (tok : Token) (s : Interp) (d : DefData),
      s.isCompiling = true → s.curDefinition = some d →
      handleStartModuleToken fuel tok s =
        execute fuel (.startModuleWord tok.text)
          (appendedDef s d (.startModuleWord tok.text))) ∧
    (∀ (fuel : Nat) (tok : Token) (s : Interp) (d : DefData),
      s.isCompiling = true → s.curDefinition = some d →
      handleEndModuleToken fuel tok s =
        execute fuel .endModuleWord (appendedDef s d .endModuleWord)) ∧
    (∀ (fuel : Nat) (tok : Token) (s : Interp) (d : DefData),
      tok.kind = .startArray → s.isCompiling = true → s.curDefinition = some d →
      handleToken fuel tok s =
        .ok () (appendedDef s d
          (.pushValue "<start_array_token>" (.token tok)))) ∧
    (∀ (fuel : Nat) (tok : Token) (s : Interp) (d : DefData),
      tok.kind = .endArray → s.isCompiling = true → s.curDefinition = some d →
      handleToken fuel tok s = .ok () (appendedDef s d .endArrayWord)) ∧
    (∀ (fuel : Nat) (w : Wrd) (loc : CodeLocation) (s : Interp) (d : DefData),
      s.isCompiling = true → s.curDefinition = some d →
      handleWord fuel w loc s = .ok () (appendedDef s d w)) := by
  refine ⟨?_, ?_, ?_, ?_, ?_⟩
  · intro fuel tok s d hc hd
    simp [handleStartModuleToken, hc, appendToDef, hd, execute, appendedDef]
  · intro fuel tok s d hc hd
    simp [handleEndModuleToken, hc, appendToDef, hd, execute, appendedDef]
  · intro fuel tok s d hk hc hd
    simp [handleToken, hk, handleWord, hc, appendToDef, hd, appendedDef]
  · intro fuel tok s d hk hc hd
    simp [handleToken, hk, handleWord, hc, appendToDef, hd, appendedDef]
  · intro fuel w loc s d hc hd
    simp [handleWord, hc, appendToDef, hd, appendedDef]

/-- Witness for C9 (amended) at the concrete compiling state. -/
theorem compile_mode_immediate_words_witness :
    handleStartModuleToken 3 ⟨.startModule, "m", ⟨"", 1, 1, 0, 1⟩⟩ c9State =
      execute 3 (.startModuleWord "m")
        { c9State with curDefinition := some ⟨"F", [.startModuleWord "m"]⟩ } ∧
    handleEndModuleToken 3 ⟨.endModule, "\x7d", ⟨"", 1, 1, 0, 1⟩⟩ c9State =
      execute 3 .endModuleWord
        { c9State with curDefinition := some ⟨"F", [.endModuleWord]⟩ } ∧
    handleToken 3 c9ArrTok c9State = .ok () c9Appended ∧
    handleToken 3 c9EndTok c9State =
      .ok () { c9State with curDefinition := some ⟨"F", [.endArrayWord]⟩ } ∧
    handleWord 3 (.pushValue "v" (.int 1)) ⟨"", 1, 1, 0, 1⟩ c9State =
      .ok () { c9State with
               curDefinition := some ⟨"F", [.pushValue "v" (.int 1)]⟩ } :=
  ⟨compile_mode_immediate_words.1 3 _ c9State ⟨"F", []⟩ rfl rfl,
   compile_mode_immediate_words.2.1 3 _ c9State ⟨"F", []⟩ rfl rfl,
   compile_mode_immediate_words.2.2.1 3 c9ArrTok c9State ⟨"F", []⟩ rfl rfl rfl,
   compile_mode_immediate_words.2.2.2.1 3 c9EndTok c9State ⟨"F", []⟩ rfl rfl rfl,
   compile_mode_immediate_words.2.2.2.2 3 _ _ c9State ⟨"F", []⟩ rfl rfl⟩
/-! ## C5 — import exportability -/

theorem getMod_heapAppend (s : Interp) (ms : List ModuleData) (id : Nat)
    (h : id < s.heap.length) :
    getMod { s with heap := s.heap ++ ms } id = getMod s id :=
  getD_append_left s.heap ms id (newModule "") h

theorem getMod_heapAppend_last (s : Interp) (m : ModuleData) :
    getMod { s with heap := s.heap ++ [m] } s.heap.length = m :=
  getD_append_last s.heap m (newModule "")

/-- Effect of the import loop on the host module: its heap slot accumulates
exactly the given words (wrapped when the prefix is nonempty) and nothing
else about it changes; the heap size is untouched. -/
theorem importWordStep_fold (hostId : Nat) (pfx : String) (ws : List Wrd) :
    ∀ (s : Interp), hostId < s.heap.length →
      (ws.foldl (importWordStep hostId pfx) s).heap.length = s.heap.length ∧
      getMod (ws.foldl (importWordStep hostId pfx) s) hostId =
        { getMod s hostId with
          words := (getMod s hostId).words ++
            ws.map (fun w => if pfx = "" then w
              else .executeWord (pfx ++ "." ++ wordName w) w) } := by
  induction ws with
  | nil =>
    intro s h
    exact ⟨rfl, by simp⟩
  | cons w rest ih =>
    intro s h
    have hstep_len : (importWordStep hostId pfx s w).heap.length =
        s.heap.length := by
      by_cases hp : pfx = "" <;> simp [importWordStep, hp, setMod]
    have hstep_get : getMod (importWordStep hostId pfx s w) hostId =
        moduleAddWord (getMod s hostId)
          (if pfx = "" then w
           else .executeWord (pfx ++ "." ++ wordName w) w) := by
      by_cases hp : pfx = "" <;>
        simp [importWordStep, hp, getMod_setMod_self _ _ _ h]
    have hlt : hostId < (importWordStep hostId pfx s w).heap.length := by
      rw [hstep_len]; exact h
    obtain ⟨ihlen, ihget⟩ := ih (importWordStep hostId pfx s w) hlt
    rw [List.foldl_cons]
    refine ⟨by rw [ihlen, hstep_len], ?_⟩
    rw [ihget, hstep_get]
    simp [moduleAddWord]

set_option maxHeartbeats 1000000 in
/-- C5: importing a module into a host first duplicates it — the words list
and exportable list are copied, the variables become fresh cells with the
same contents, and the child-module references are shared (first conjunct) —
and the words the import adds to the host are exactly the duplicate's words
whose names appear in the exportable list (second conjunct characterises the
exportable surface, third conjunct the added words: direct for an empty
prefix, wrapped in a delegating word named prefix.name otherwise, with the
host's variables untouched).  Consequently a word whose name is not in the
module's exportable list is never findable from a host that only imported
the module (fourth conjunct, for a fresh host). -/
theorem import_exportability :
    (∀ m : ModuleData,
      (dupModule m).words = m.words ∧
      (dupModule m).exportable = m.exportable ∧
      (dupModule m).vars = m.vars.map dupVariable ∧
      (dupModule m).modules = m.modules) ∧
    (∀ (m : ModuleData) (w : Wrd), w ∈ exportableWords m →
      m.exportable.contains (wordName w) = true) ∧
    (∀ (s : Interp) (hostId srcId : Nat) (pfx : String),
      hostId < s.heap.length →
      (getMod (importModuleIntoModule s hostId pfx srcId) hostId).words =
        (getMod s hostId).words ++
          (exportableWords (dupModule (getMod s srcId))).map
            (fun w => if pfx = "" then w
              else .executeWord (pfx ++ "." ++ wordName w) w) ∧
      (getMod (importModuleIntoModule s hostId pfx srcId) hostId).vars =
        (getMod s hostId).vars) ∧
    (∀ (s : Interp) (hostId srcId : Nat) (nm : String),
      hostId < s.heap.length →
      (getMod s hostId).words = [] →
      (getMod s hostId).vars = [] →
      (getMod s srcId).exportable.contains nm = false →
      moduleFindWord
        (getMod (importModuleIntoModule s hostId "" srcId) hostId) nm =
        none) := by
  have hmain : ∀ (s : Interp) (hostId srcId : Nat) (pfx : String),
      hostId < s.heap.length →
      (getMod (importModuleIntoModule s hostId pfx srcId) hostId).words =
        (getMod s hostId).words ++
          (exportableWords (dupModule (getMod s srcId))).map
            (fun w => if pfx = "" then w
              else .executeWord (pfx ++ "." ++ wordName w) w) ∧
      (getMod (importModuleIntoModule s hostId pfx srcId) hostId).vars =
        (getMod s hostId).vars := by
    intro s hostId srcId pfx h
    simp only [importModuleIntoModule]
    set s1 : Interp := { s with heap := s.heap ++ [dupModule (getMod s srcId)] }
      with hs1
    set ws := exportableWords (getMod s1 s.heap.length) with hws
    set s2 := ws.foldl (importWordStep hostId pfx) s1 with hs2
    have h1 : hostId < s1.heap.length := by
      rw [hs1]
      simp only [List.length_append, List.length_cons, List.length_nil]
      omega
    obtain ⟨flen, fget⟩ := importWordStep_fold hostId pfx ws s1 h1
    have h2 : hostId < s2.heap.length := by
      rw [hs2, flen]; exact h1
    rw [getMod_setMod_self _ _ _ h2]
    have hdup : getMod s1 s.heap.length = dupModule (getMod s srcId) := by
      rw [hs1]; exact getMod_heapAppend_last s (dupModule (getMod s srcId))
    constructor
    · show (getMod s2 hostId).words = _
      rw [hs2, fget]
      show (getMod s1 hostId).words ++ _ = _
      rw [hs1, getMod_heapAppend s _ hostId h, hws, hdup]
    · show (getMod s2 hostId).vars = _
      rw [hs2, fget]
      show (getMod s1 hostId).vars = _
      rw [hs1, getMod_heapAppend s _ hostId h]
  refine ⟨fun m => ⟨rfl, rfl, rfl, rfl⟩, ?_, hmain, ?_⟩
  · intro m w hw
    exact (List.mem_filter.mp hw).2
  · intro s hostId srcId nm h hwords hvars hexp
    obtain ⟨hw, hv⟩ := hmain s hostId srcId "" h
    have hid : (fun (w : Wrd) => if ("" : String) = "" then w
        else Wrd.executeWord ("" ++ "." ++ wordName w) w) = fun w => w := by
      funext w; simp
    rw [hwords, hid, List.map_id', List.nil_append] at hw
    have hdict : findDictionaryWord
        (getMod (importModuleIntoModule s hostId "" srcId) hostId).words nm =
        none := by
      rw [hw, findDictionaryWord]
      apply List.find?_eq_none.mpr
      intro x hx
      have hx' : x ∈ exportableWords (dupModule (getMod s srcId)) :=
        List.mem_reverse.mp hx
      have hc : (dupModule (getMod s srcId)).exportable.contains
          (wordName x) = true := (List.mem_filter.mp hx').2
      have hne : wordName x ≠ nm := by
        intro hEq
        rw [hEq] at hc
        rw [show (dupModule (getMod s srcId)).exportable =
          (getMod s srcId).exportable from rfl] at hc
        rw [hexp] at hc
        exact Bool.false_ne_true hc
      simp [hne]
    have hvar : (getMod (importModuleIntoModule s hostId "" srcId)
        hostId).vars = [] := by rw [hv, hvars]
    simp [moduleFindWord, hdict, findVariable, hvar]

/-- Source module of the C5 witness: a non-exportable word named SECRET and
an exportable word named PUB. -/
def c5Src : ModuleData :=
  { newModule "mod" with
    words := [.pushValue "SECRET" (.int 1), .pushValue "PUB" (.int 2)]
    exportable := ["PUB"] }

def c5Host : Interp :=
  { newInterpreter noZone sampleToday with heap := [newModule "", c5Src] }

/-- Witness for C5: duplication, the exportable surface, the words an import
adds, and the non-findability of the non-exportable word, at the concrete
module. -/
theorem import_exportability_witness :
    ((dupModule c5Src).words = c5Src.words ∧
      (dupModule c5Src).exportable = c5Src.exportable ∧
      (dupModule c5Src).vars = c5Src.vars.map dupVariable ∧
      (dupModule c5Src).modules = c5Src.modules) ∧
    c5Src.exportable.contains (wordName (.pushValue "PUB" (.int 2))) = true ∧
    ((getMod (importModuleIntoModule c5Host 0 "" 1) 0).words =
      (getMod c5Host 0).words ++
        (exportableWords (dupModule (getMod c5Host 1))).map
          (fun w => if ("" : String) = "" then w
            else .executeWord ("" ++ "." ++ wordName w) w) ∧
     (getMod (importModuleIntoModule c5Host 0 "" 1) 0).vars =
       (getMod c5Host 0).vars) ∧
    moduleFindWord (getMod (importModuleIntoModule c5Host 0 "" 1) 0)
      "SECRET" = none :=
  ⟨import_exportability.1 c5Src,
   import_exportability.2.1 c5Src (.pushValue "PUB" (.int 2))
     (by rw [show exportableWords c5Src = [.pushValue "PUB" (.int 2)] from rfl]
         exact List.mem_singleton_self _),
   import_exportability.2.2.1 c5Host 0 1 "" (by decide),
   import_exportability.2.2.2 c5Host 0 1 "SECRET" (by decide) rfl rfl rfl⟩
/-! ## C4 — module stack discipline -/

/-- The module-stack invariant: the stack is never empty and its bottom (the
last element in this head-is-top representation) is the app module. -/
def bottomIsApp (s : Interp) : Prop :=
  s.moduleStack ≠ [] ∧ s.moduleStack.getLast? = some s.appModuleId

/-- The invariant holds again after an operation, whenever the operation
completed normally or with a Go error return; panics abandon the state and
fuel exhaustion corresponds to no Go behaviour. -/
def resPreserves : Res Unit → Prop
  | .ok _ s' => bottomIsApp s'
  | .err _ s' => bottomIsApp s'
  | .panic _ => True
  | .dry => True

theorem bottomIsApp_same (s s' : Interp)
    (hm : s'.moduleStack = s.moduleStack)
    (ha : s'.appModuleId = s.appModuleId) (h : bottomIsApp s) :
    bottomIsApp s' := by
  rw [bottomIsApp, hm, ha]; exact h

theorem bottomIsApp_push (s : Interp) (id : Nat) (h : bottomIsApp s) :
    bottomIsApp (moduleStackPush s id) := by
  obtain ⟨hne, hl⟩ := h
  refine ⟨by simp [moduleStackPush], ?_⟩
  show (id :: s.moduleStack).getLast? = some s.appModuleId
  rw [getLast?_cons_ne _ _ hne]
  exact hl

theorem bottomIsApp_ite (c : Prop) [Decidable c] (s1 s2 : Interp) (id : Nat)
    (h1 : bottomIsApp s1) (h2 : bottomIsApp s2) :
    resPreserves (Res.ok () (moduleStackPush (if c then s1 else s2) id)) := by
  split
  · exact bottomIsApp_push s1 id h1
  · exact bottomIsApp_push s2 id h2

theorem lookup_insertA {α : Type} (k : String) (v : α) :
    ∀ l : List (String × α), (insertA l k v).lookup k = some v := by
  intro l
  induction l with
  | nil => simp [insertA, List.lookup]
  | cons p t ih =>
    obtain ⟨a, b⟩ := p
    by_cases hak : a = k
    · simp [insertA, hak, List.lookup]
    · have hk : (k == a) = false := by
        simp only [beq_eq_false_iff_ne, ne_eq]
        exact fun hEq => hak hEq.symm
      simp only [insertA, if_neg hak, List.lookup, hk]
      exact ih

/-- Routing shape of ModuleWord.Execute over an arbitrary native outcome. -/
def nativeRoute (handlers : List (FErr → Option FErr)) : Res Unit → Res Unit
  | .err e s' =>
    match tryErrorHandlers handlers e with
    | none => .ok () s'
    | some _ => .err e s'
  | r => r

theorem resPreserves_native_route (handlers : List (FErr → Option FErr))
    (r : Res Unit) (hr : resPreserves r) :
    resPreserves (nativeRoute handlers r) := by
  cases r with
  | ok v s' => exact hr
  | err e s' =>
    show resPreserves (match tryErrorHandlers handlers e with
      | none => Res.ok () s'
      | some _ => Res.err e s')
    cases tryErrorHandlers handlers e with
    | none => exact hr
    | some x => exact hr
  | panic e => exact trivial
  | dry => exact trivial

/-- Routing shape of the memo words that push the refreshed value. -/
def pushAfter (id : Nat) : Res Unit → Res Unit
  | .ok _ s' => .ok () (stackPush s' (getMemo s' id).value)
  | r => r

theorem resPreserves_push_after (id : Nat) (r : Res Unit)
    (hr : resPreserves r) : resPreserves (pushAfter id r) := by
  cases r with
  | ok v s' => exact bottomIsApp_same s' _ rfl rfl hr
  | err e s' => exact hr
  | panic e => exact trivial
  | dry => exact trivial

/-- Routing shape of DefinitionWord.Execute over the first word's outcome. -/
def bodyRoute (fuel : Nat) (rest : List Wrd)
    (handlers : List (FErr → Option FErr)) : Res Unit → Res Unit
  | .ok _ s' => executeAux fuel (.body rest handlers) s'
  | .err e s' =>
    match tryErrorHandlers handlers e with
    | none => executeAux fuel (.body rest handlers) s'
    | some _ => .err e s'
  | r => r

theorem resPreserves_body_route (fuel : Nat) (rest : List Wrd)
    (handlers : List (FErr → Option FErr)) (r : Res Unit)
    (hr : resPreserves r)
    (hcont : ∀ s', bottomIsApp s' →
      resPreserves (executeAux fuel (.body rest handlers) s')) :
    resPreserves (bodyRoute fuel rest handlers r) := by
  cases r with
  | ok v s' => exact hcont s' hr
  | err e s' =>
    show resPreserves (match tryErrorHandlers handlers e with
      | none => executeAux fuel (.body rest handlers) s'
      | some _ => Res.err e s')
    cases tryErrorHandlers handlers e with
    | none => exact hcont s' hr
    | some x => exact hr
  | panic e => exact trivial
  | dry => exact trivial

/-- Routing shape of ModuleMemoWord.Refresh over the body's outcome. -/
def refreshRoute (id : Nat) : Res Unit → Res Unit
  | .ok _ s' =>
    match stackPop s' with
    | .ok v s'' =>
      .ok () (setMemo s'' id { getMemo s'' id with value := v, hasValue := true })
    | .err e s'' => .err e s''
    | .panic e => .panic e
    | .dry => .dry
  | r => r

theorem resPreserves_refresh_route (id : Nat) (r : Res Unit)
    (hr : resPreserves r) : resPreserves (refreshRoute id r) := by
  cases r with
  | ok v s' =>
    show resPreserves (match stackPop s' with
      | .ok v s'' =>
        Res.ok () (setMemo s'' id { getMemo s'' id with value := v, hasValue := true })
      | .err e s'' => .err e s''
      | .panic e => .panic e
      | .dry => .dry)
    rcases hst : s'.stack with _ | ⟨v0, rest⟩ <;> simp only [stackPop, hst]
    · exact trivial
    · exact bottomIsApp_same s' _ rfl rfl hr
  | err e s' => exact hr
  | panic e => exact trivial
  | dry => exact trivial

/-- Native behaviours only ever touch the operand stack. -/
theorem runNative_preserves (b : NativeBehavior) (s : Interp)
    (h : bottomIsApp s) : resPreserves (runNative b s) := by
  cases b with
  | failWith e => exact h
  | mathPlus =>
    show resPreserves (mathPlusExec s)
    unfold mathPlusExec
    rcases hs : s.stack with _ | ⟨b0, rest⟩
    · simp [stackPop, hs, resPreserves]
    · rcases b0 with _ | _ | _ | _ | _ | arr | _ | _ | _ | _ | _ <;>
        simp only [stackPop, hs] <;>
        first
          | (exact bottomIsApp_same s _ rfl rfl h)
          | (rcases rest with _ | ⟨a0, rest2⟩
             · simp [resPreserves]
             · simp only []
               rcases toNumber a0 with _ | na <;>
                 rcases hb : toNumber _ with _ | nb <;>
                 exact bottomIsApp_same s _ rfl rfl h)

/-- Word execution preserves the module-stack invariant: every completed
execution (normal or error return) leaves a non-empty module stack whose
bottom is the app module. -/
theorem executeAux_preserves :
    ∀ (fuel : Nat) (t : ExecTask) (s : Interp), bottomIsApp s →
      resPreserves (executeAux fuel t s) := by
  intro fuel
  induction fuel with
  | zero => intro t s h; exact trivial
  | succ fuel ih =>
    intro t s h
    cases t with
    | one w =>
      cases w with
      | pushValue nm v => exact bottomIsApp_same s _ rfl rfl h
      | definition nm body handlers => exact ih (.body body handlers) s h
      | endArrayWord =>
        show resPreserves (endArrayExec s)
        unfold endArrayExec
        rcases hc : collectToSentinel s.stack with _ | ⟨items, below⟩
        · exact trivial
        · exact bottomIsApp_same s _ rfl rfl h
      | startModuleWord nm =>
        show resPreserves (startModuleExec s nm)
        unfold startModuleExec
        split
        · exact bottomIsApp_push s _ h
        · split
          · exact bottomIsApp_push s _ h
          · exact bottomIsApp_ite _ _ _ _
              (bottomIsApp_same s _ rfl rfl h)
              (bottomIsApp_same s _ rfl rfl h)
      | endModuleWord =>
        rcases hms : s.moduleStack with _ | ⟨a, _ | ⟨b, t2⟩⟩
        · exact absurd hms h.1
        · show resPreserves (match moduleStackPop s with
            | .ok _ s' => Res.ok () s'
            | .err e s' => .err e s'
            | .panic e => .panic e
            | .dry => .dry)
          unfold moduleStackPop
          rw [hms]
          exact trivial
        · show resPreserves (match moduleStackPop s with
            | .ok _ s' => Res.ok () s'
            | .err e s' => .err e s'
            | .panic e => .panic e
            | .dry => .dry)
          unfold moduleStackPop
          rw [hms]
          show bottomIsApp { s with moduleStack := b :: t2 }
          obtain ⟨hne, hl⟩ := h
          rw [hms] at hl
          rw [getLast?_cons_ne _ _ (by simp)] at hl
          exact ⟨by simp, hl⟩
      | memoWord id nm =>
        show resPreserves (if (getMemo s id).hasValue
          then Res.ok () (stackPush s (getMemo s id).value)
          else match executeAux fuel (.refresh id) s with
            | .ok _ s' => .ok () (stackPush s' (getMemo s' id).value)
            | r => r)
        split
        · exact bottomIsApp_same s _ rfl rfl h
        · exact resPreserves_push_after id _ (ih (.refresh id) s h)
      | memoBangWord id nm => exact ih (.refresh id) s h
      | memoBangAtWord id nm =>
        exact resPreserves_push_after id _ (ih (.refresh id) s h)
      | executeWord nm target => exact ih (.one target) s h
      | moduleWord nm handlers b =>
        exact resPreserves_native_route handlers _ (runNative_preserves b s h)
    | body ws handlers =>
      cases ws with
      | nil => exact h
      | cons w rest =>
        exact resPreserves_body_route fuel rest handlers _ (ih (.one w) s h)
          (fun s' hs' => ih (.body rest handlers) s' hs')
    | refresh id =>
      exact resPreserves_refresh_route id _ (ih (.one (getMemo s id).word) s h)

/-- Appending a word to the current definition never touches the module
stack. -/
theorem appendToDef_bottom (s s' : Interp) (w : Wrd)
    (hap : appendToDef s w = some s') (h : bottomIsApp s) : bottomIsApp s' := by
  unfold appendToDef at hap
  rcases hd : s.curDefinition with _ | d <;> rw [hd] at hap
  · exact absurd hap (by simp)
  · injection hap with h1
    exact h1 ▸ bottomIsApp_same s _ rfl rfl h

theorem handleWord_preserves (fuel : Nat) (w : Wrd) (loc : CodeLocation)
    (s : Interp) (h : bottomIsApp s) : resPreserves (handleWord fuel w loc s) := by
  unfold handleWord
  split
  · rcases hap : appendToDef s w with _ | s'
    · exact trivial
    · exact appendToDef_bottom s s' w hap h
  · exact executeAux_preserves fuel (.one w) s h

theorem handleStartModuleToken_preserves (fuel : Nat) (tok : Token)
    (s : Interp) (h : bottomIsApp s) :
    resPreserves (handleStartModuleToken fuel tok s) := by
  unfold handleStartModuleToken
  dsimp only
  split
  · rcases hap : appendToDef s (.startModuleWord tok.text) with _ | s'
    · exact trivial
    · exact executeAux_preserves fuel (.one (.startModuleWord tok.text)) s'
        (appendToDef_bottom s s' (.startModuleWord tok.text) hap h)
  · exact executeAux_preserves fuel (.one (.startModuleWord tok.text)) s h

theorem handleEndModuleToken_preserves (fuel : Nat) (tok : Token)
    (s : Interp) (h : bottomIsApp s) :
    resPreserves (handleEndModuleToken fuel tok s) := by
  unfold handleEndModuleToken
  dsimp only
  split
  · rcases hap : appendToDef s .endModuleWord with _ | s'
    · exact trivial
    · exact executeAux_preserves fuel (.one .endModuleWord) s'
        (appendToDef_bottom s s' .endModuleWord hap h)
  · exact executeAux_preserves fuel (.one .endModuleWord) s h

theorem handleStartDefinitionToken_preserves (tok : Token) (s : Interp)
    (h : bottomIsApp s) : resPreserves (handleStartDefinitionToken tok s) := by
  unfold handleStartDefinitionToken
  split
  · rcases s.previousToken with _ | pt
    · exact trivial
    · exact h
  · exact bottomIsApp_same s _ rfl rfl h

theorem handleStartMemoToken_preserves (tok : Token) (s : Interp)
    (h : bottomIsApp s) : resPreserves (handleStartMemoToken tok s) := by
  unfold handleStartMemoToken
  split
  · rcases s.previousToken with _ | pt
    · exact trivial
    · exact h
  · exact bottomIsApp_same s _ rfl rfl h

theorem handleEndDefinitionToken_preserves (tok : Token) (s : Interp)
    (h : bottomIsApp s) : resPreserves (handleEndDefinitionToken tok s) := by
  unfold handleEndDefinitionToken
  split
  · dsimp only
    split
    · exact bottomIsApp_same s _ rfl rfl h
    · exact bottomIsApp_same s _ rfl rfl h
  all_goals exact h

theorem handleWordToken_preserves (fuel : Nat) (tok : Token) (s : Interp)
    (h : bottomIsApp s) : resPreserves (handleWordToken fuel tok s) := by
  unfold handleWordToken
  rcases findWord s tok.text with e | w
  · exact h
  · exact handleWord_preserves fuel w tok.location s h

theorem handleToken_preserves (fuel : Nat) (tok : Token) (s : Interp)
    (h : bottomIsApp s) : resPreserves (handleToken fuel tok s) := by
  obtain ⟨kind, text, location⟩ := tok
  cases kind with
  | string =>
    exact handleWord_preserves fuel (.pushValue "<string>" (.str text)) location s h
  | comment => exact h
  | startArray =>
    exact handleWord_preserves fuel
      (.pushValue "<start_array_token>" (.token ⟨.startArray, text, location⟩))
      location s h
  | endArray => exact handleWord_preserves fuel .endArrayWord location s h
  | startModule =>
    exact handleStartModuleToken_preserves fuel ⟨.startModule, text, location⟩ s h
  | endModule =>
    exact handleEndModuleToken_preserves fuel ⟨.endModule, text, location⟩ s h
  | startDef =>
    exact handleStartDefinitionToken_preserves ⟨.startDef, text, location⟩ s h
  | endDef =>
    exact handleEndDefinitionToken_preserves ⟨.endDef, text, location⟩ s h
  | startMemo =>
    exact handleStartMemoToken_preserves ⟨.startMemo, text, location⟩ s h
  | word =>
    exact handleWordToken_preserves fuel ⟨.word, text, location⟩ s h
  | dotSymbol =>
    exact handleWord_preserves fuel (.pushValue "<dot-symbol>" (.str text)) location s h
  | eos =>
    show resPreserves (if s.isCompiling then
        match s.previousToken with
        | some pt => Res.err ⟨.missingSemicolon, some pt.location⟩ s
        | none => Res.err ⟨.missingSemicolon, none⟩ s
      else Res.ok () s)
    split
    · rcases s.previousToken with _ | pt
      · exact h
      · exact h
    · exact h

theorem runLoop_preserves :
    ∀ (fuel : Nat) (s : Interp), bottomIsApp s → resPreserves (runLoop fuel s) := by
  intro fuel
  induction fuel with
  | zero => intro s h; exact trivial
  | succ fuel ih =>
    intro s h
    show resPreserves (match s.tokenizerStack with
      | [] => Res.panic ⟨.forthicMsg "no tokenizer", none⟩
      | tk :: rest =>
        match nextToken tk with
        | .fail e tk' => Res.err e { s with tokenizerStack := tk' :: rest }
        | .deferred _ => Res.panic ⟨.forthicMsg "nil token", none⟩
        | .dry => Res.dry
        | .tok token tk' =>
          match handleToken fuel token { s with tokenizerStack := tk' :: rest } with
          | .ok _ s2 =>
            if token.kind = .eos then Res.ok () s2
            else runLoop fuel { s2 with previousToken := some token }
          | r => r)
    rcases hts : s.tokenizerStack with _ | ⟨tk, rest⟩
    · exact trivial
    · show resPreserves (match nextToken tk with
        | .fail e tk' => Res.err e { s with tokenizerStack := tk' :: rest }
        | .deferred _ => Res.panic ⟨.forthicMsg "nil token", none⟩
        | .dry => Res.dry
        | .tok token tk' =>
          match handleToken fuel token { s with tokenizerStack := tk' :: rest } with
          | .ok _ s2 =>
            if token.kind = .eos then Res.ok () s2
            else runLoop fuel { s2 with previousToken := some token }
          | r => r)
      rcases hnt : nextToken tk with ⟨token, tk'⟩ | _ | ⟨e, tk'⟩ | _
      · show resPreserves (match handleToken fuel token { s with tokenizerStack := tk' :: rest } with
          | .ok _ s2 =>
            if token.kind = .eos then Res.ok () s2
            else runLoop fuel { s2 with previousToken := some token }
          | r => r)
        have hh := handleToken_preserves fuel token { s with tokenizerStack := tk' :: rest }
          (bottomIsApp_same s _ rfl rfl h)
        rcases hres : handleToken fuel token { s with tokenizerStack := tk' :: rest } with
          ⟨v, s2⟩ | ⟨e, s2⟩ | e | _ <;> rw [hres] at hh
        · show resPreserves (if token.kind = .eos then Res.ok () s2
            else runLoop fuel { s2 with previousToken := some token })
          split
          · exact hh
          · exact ih _ (bottomIsApp_same s2 _ rfl rfl hh)
        · exact hh
        · exact trivial
        · exact trivial
      · exact trivial
      · exact bottomIsApp_same s _ rfl rfl h
      · exact trivial

theorem run_preserves (fuel : Nat) (code : String) (s : Interp)
    (h : bottomIsApp s) : resPreserves (run fuel code s) := by
  show resPreserves (match runLoop fuel
      { s with tokenizerStack := newTokenizer code none false :: s.tokenizerStack } with
    | .ok _ s' => Res.ok () (popTokenizer s')
    | .err e s' => Res.err e (popTokenizer s')
    | r => r)
  have hh := runLoop_preserves fuel
    { s with tokenizerStack := newTokenizer code none false :: s.tokenizerStack }
    (bottomIsApp_same s _ rfl rfl h)
  rcases hres : runLoop fuel
      { s with tokenizerStack := newTokenizer code none false :: s.tokenizerStack } with
    ⟨v, s'⟩ | ⟨e, s'⟩ | e | _ <;> rw [hres] at hh
  · exact bottomIsApp_same s' _ rfl rfl hh
  · exact bottomIsApp_same s' _ rfl rfl hh
  · exact trivial
  · exact trivial

theorem bottomIsApp_newInterpreter (validZone : String → Bool)
    (today : Int × Int × Int) : bottomIsApp (newInterpreter validZone today) :=
  ⟨fun hEq => List.noConfusion hEq, rfl⟩

/-- C4: Entering a module with an empty name pushes the app module onto the
module stack; with a non-empty name it pushes the existing child of the
current module when there is one, and otherwise allocates a new module of
that name, registers it as a child of the current module, registers it with
the interpreter's global registry exactly when the current module is the app
module (the one with the empty name), and pushes it.  Popping the module
stack removes the top entry and popping the bottom app module is a fatal
panic; consequently, across every run from the initial interpreter the
module stack stays non-empty with the app module at its bottom. -/
theorem module_stack_discipline :
    (∀ s : Interp, startModuleExec s "" = .ok () (moduleStackPush s s.appModuleId)) ∧
    (∀ (s : Interp) (nm : String) (id : Nat), nm ≠ "" →
      (getMod s (curModuleId s)).modules.lookup nm = some id →
      startModuleExec s nm = .ok () (moduleStackPush s id)) ∧
    (∀ (s : Interp) (nm : String), nm ≠ "" →
      (getMod s (curModuleId s)).modules.lookup nm = none →
      curModuleId s < s.heap.length →
      ∃ s' : Interp,
        startModuleExec s nm = .ok () (moduleStackPush s' s.heap.length) ∧
        getMod s' s.heap.length = newModule nm ∧
        (getMod s' (curModuleId s)).modules.lookup nm = some s.heap.length ∧
        (((getMod s (curModuleId s)).name = "" ↔ curModuleId s = s.appModuleId) →
          s'.registeredMods =
            if curModuleId s = s.appModuleId then
              insertA s.registeredMods nm s.heap.length
            else s.registeredMods)) ∧
    (∀ s : Interp, s.moduleStack.length ≤ 1 →
      moduleStackPop s =
        .panic ⟨.forthicMsg "Cannot pop app module from module stack", none⟩) ∧
    (∀ (s : Interp) (a b : Nat) (rest : List Nat), s.moduleStack = a :: b :: rest →
      moduleStackPop s = .ok a { s with moduleStack := b :: rest }) ∧
    (∀ (fuel : Nat) (code : String) (s : Interp), bottomIsApp s →
      resPreserves (run fuel code s)) ∧
    (∀ (validZone : String → Bool) (today : Int × Int × Int),
      bottomIsApp (newInterpreter validZone today)) := by
  refine ⟨fun s => rfl, ?_, ?_, ?_, ?_, run_preserves, bottomIsApp_newInterpreter⟩
  · intro s nm id hnm hlook
    unfold startModuleExec
    rw [if_neg hnm, hlook]
  · intro s nm hnm hlook hcur
    set s1 : Interp := { s with heap := s.heap ++ [newModule nm] } with hs1
    set m2 : ModuleData :=
      moduleRegisterModule (getMod s1 (curModuleId s)) nm nm s.heap.length with hm2
    set s2 : Interp := setMod s1 (curModuleId s) m2 with hs2
    set s3 : Interp :=
      (if (getMod s2 (curModuleId s)).name = "" then
        registerModuleInterp s2 s.heap.length
      else s2) with hs3
    have hlen1 : curModuleId s < s1.heap.length := by
      show curModuleId s < (s.heap ++ [newModule nm]).length
      rw [List.length_append]
      omega
    have hgm2cur : getMod s2 (curModuleId s) = m2 := by
      show (s1.heap.set (curModuleId s) m2).getD (curModuleId s) (newModule "") = m2
      exact getD_set_self _ _ _ _ hlen1
    have hgm2new : getMod s2 s.heap.length = newModule nm := by
      show (s1.heap.set (curModuleId s) m2).getD s.heap.length (newModule "") = newModule nm
      rw [getD_set_ne _ _ _ _ _ (Nat.ne_of_lt hcur)]
      show (s.heap ++ [newModule nm]).getD s.heap.length (newModule "") = newModule nm
      exact getD_append_last s.heap (newModule nm) (newModule "")
    have hname2 : (getMod s2 (curModuleId s)).name = (getMod s (curModuleId s)).name := by
      rw [hgm2cur]
      show (getMod s1 (curModuleId s)).name = (getMod s (curModuleId s)).name
      show ((s.heap ++ [newModule nm]).getD (curModuleId s) (newModule "")).name =
        (getMod s (curModuleId s)).name
      rw [getD_append_left _ _ _ _ hcur]
      rfl
    have hgm3 : ∀ X, getMod s3 X = getMod s2 X := by
      intro X
      rw [hs3]
      split
      · rfl
      · rfl
    refine ⟨s3, ?_, ?_, ?_, ?_⟩
    · unfold startModuleExec
      rw [if_neg hnm, hlook]
      rfl
    · rw [hgm3]
      exact hgm2new
    · rw [hgm3, hgm2cur]
      show (insertA (getMod s1 (curModuleId s)).modules nm s.heap.length).lookup nm =
        some s.heap.length
      exact lookup_insertA nm s.heap.length _
    · intro hiff
      by_cases hc : (getMod s (curModuleId s)).name = ""
      · rw [hs3, if_pos (hname2.trans hc), if_pos (hiff.mp hc)]
        show insertA s2.registeredMods (getMod s2 s.heap.length).name s.heap.length =
          insertA s.registeredMods nm s.heap.length
        rw [hgm2new]
        rfl
      · rw [hs3, if_neg (fun hEq => hc (hname2.symm.trans hEq)),
          if_neg (fun hEq => hc (hiff.mpr hEq))]
        rfl
  · intro s hlen
    rcases hms : s.moduleStack with _ | ⟨a, _ | ⟨b, t⟩⟩
    · unfold moduleStackPop
      rw [hms]
    · unfold moduleStackPop
      rw [hms]
    · rw [hms] at hlen
      simp only [List.length_cons] at hlen
      omega
  · intro s a b rest hms
    unfold moduleStackPop
    rw [hms]

/-- Inputs used by the C4 witness: the fresh interpreter, an interpreter
whose app module already has a child named m at heap slot 1, and an
interpreter with a two-deep module stack. -/
def c4Init : Interp := newInterpreter noZone sampleToday

def c4ChildMod : ModuleData := { newModule "" with modules := [("m", 1)] }

def c4Child : Interp := { mkInterp [] with heap := [c4ChildMod, newModule "m"] }

def c4Pop2 : Interp := { c4Init with moduleStack := 1 :: 0 :: [] }

theorem module_stack_discipline_witness :
    startModuleExec c4Init "" = Res.ok () (moduleStackPush c4Init c4Init.appModuleId) ∧
    ("m" ≠ "" ∧ (getMod c4Child (curModuleId c4Child)).modules.lookup "m" = some 1 ∧
      startModuleExec c4Child "m" = Res.ok () (moduleStackPush c4Child 1)) ∧
    ("m" ≠ "" ∧ (getMod c4Init (curModuleId c4Init)).modules.lookup "m" = none ∧
      curModuleId c4Init < c4Init.heap.length ∧
      (∃ s' : Interp,
        startModuleExec c4Init "m" = Res.ok () (moduleStackPush s' c4Init.heap.length) ∧
        getMod s' c4Init.heap.length = newModule "m" ∧
        (getMod s' (curModuleId c4Init)).modules.lookup "m" = some c4Init.heap.length ∧
        (((getMod c4Init (curModuleId c4Init)).name = "" ↔
            curModuleId c4Init = c4Init.appModuleId) →
          s'.registeredMods =
            if curModuleId c4Init = c4Init.appModuleId then
              insertA c4Init.registeredMods "m" c4Init.heap.length
            else c4Init.registeredMods))) ∧
    (c4Init.moduleStack.length ≤ 1 ∧
      moduleStackPop c4Init =
        Res.panic ⟨.forthicMsg "Cannot pop app module from module stack", none⟩) ∧
    (c4Pop2.moduleStack = 1 :: 0 :: [] ∧
      moduleStackPop c4Pop2 = Res.ok 1 { c4Pop2 with moduleStack := 0 :: [] }) ∧
    (bottomIsApp c4Init ∧
      resPreserves (run 40 "\x7bm\x7d \x7b\x7d \x7d \x7d" c4Init)) ∧
    bottomIsApp (newInterpreter noZone sampleToday) := by
  obtain ⟨h1, h2, h3, h4, h5, h6, h7⟩ := module_stack_discipline
  have hb : bottomIsApp c4Init := h7 noZone sampleToday
  exact ⟨h1 c4Init,
    ⟨by decide, rfl, h2 c4Child "m" 1 (by decide) rfl⟩,
    ⟨by decide, rfl, by decide, h3 c4Init "m" (by decide) rfl (by decide)⟩,
    ⟨by decide, h4 c4Init (by decide)⟩,
    ⟨rfl, h5 c4Pop2 1 0 [] rfl⟩,
    ⟨hb, h6 40 "\x7bm\x7d \x7b\x7d \x7d \x7d" c4Init hb⟩,
    h7 noZone sampleToday⟩
end Forthic
